import Mathlib

/-!
# Verification of the `aoi` area-of-interest engine (`src/aoi.h`)

A shallow embedding of the single-file C engine:

* the object pool (`slot`, `_aoi_next_id`, `_aoi_object`, `aoi_enter`,
  `aoi_leave`);
* the two axis-ordered doubly-linked lists, embedded as `List Int` of ids
  in head-to-tail order (`xs` for `list[0]`, `ys` for `list[1]`), with the
  pointer walks of `_aoi_update_list` embedded as list recursions;
* the movement engine (`aoi_locate`, `aoi_move`, `aoi_speed`,
  `aoi_update`, `aoi_moving`, `aoi_pos`);
* the proximity scan / event differ (`aoi_trigger`, `_insert_list`,
  `_find_list`, `aoi_around`).

Machine integers are modelled as `Int` (ids and coordinates in the source
stay far below 2^31 on all paths exercised by the theorems, so overflow is
not modelled).  The C `float` fields (`d[2]`, `e`) are modelled as `ℚ`
with explicitly named stand-ins for `sqrtf` and `sinf`; the stand-ins are
exact on every value a theorem below evaluates, and no theorem depends on
an inexact float value (the guards of `aoi_move` / `aoi_update` and the
snap branch of `_aoi_object_update` are float-free).
-/

/-! ## Constants of `aoi.h` -/

def AOI_MAX_AOI : Int := 65536
def AOI_DEF_AOI : Int := 32
def AOI_ENTER : Int := 1
def AOI_LEAVE : Int := 2
def AOI_OBJECT_INVALID : Int := 0
def AOI_OBJECT_RESERVE : Int := 1

/-- `AOI_HASH_ID(id) = id % AOI_MAX_AOI`.  Every id handed out by the
allocator is non-negative, where C `%` and `Int.emod` agree. -/
def AOI_HASH_ID (id : Int) : Int := id % AOI_MAX_AOI

/-! ## Float stand-ins

`aoi_move` computes `c = sqrtf(dx*dx+dy*dy)` and `_aoi_object_update`
computes `sinf(e*p_tick)`; IEEE single precision is not representable in
a shallow integer/rational embedding.  The stand-ins below are exact for
the perfect squares used by the concrete runs in this file; no theorem
depends on their values elsewhere (all theorems route through the integer
guards or the snap branch, which do not read them). -/

/-- C cast `(int)q`: truncation toward zero (`Int.div` is T-division). -/
def ratTrunc (q : ℚ) : Int := q.num.tdiv (q.den : Int)

/-- Largest `k ≤ fuel` with `k * k ≤ n` (0 when none). -/
def isqrtAux (n : Nat) : Nat → Nat
  | 0 => 0
  | k + 1 => if (k + 1) * (k + 1) ≤ n then k + 1 else isqrtAux n k

/-- Truncated integer square root, `⌊√n⌋`. -/
def isqrt (n : Nat) : Nat := isqrtAux n n

/-- Stand-in for `(int)sqrtf((float)n)`: the truncated real square root.
Exact whenever `n` is a perfect square (the only case evaluated below). -/
def fsqrtInt (n : Int) : Int := (isqrt n.toNat : Int)

/-- Stand-in for `sqrtf((float)n)` as a rational. -/
def fsqrt (n : Int) : ℚ := (isqrt n.toNat : ℚ)

/-- Stand-in for the float constant `M_PI`. -/
def ratPi : ℚ := 314159 / 100000

/-- Stand-in for `sinf` (Taylor fragment).  Only the dead interpolation
branch of `_aoi_object_update` reads it; no theorem evaluates it. -/
def fsin (x : ℚ) : ℚ := x - x ^ 3 / 6 + x ^ 5 / 120

/-- C `abs` on `int`. -/
def iabs (a : Int) : Int := if a < 0 then -a else a

/-! ## The growable neighbour arrays

A C neighbour list is an `int` array `[count, capacity, e0, e1, ...]`.
`entries` is the payload `e0 .. e(count-1)` (so `count` is
`entries.length`, an invariant the C code maintains), `cap` is the stored
capacity word `list[1]`.  `raw` is the array as laid out in memory, which
`aoi_around` reads from index 0. -/

structure IList where
  cap : Int
  entries : List Int
  deriving DecidableEq

/-- The raw array `[count, capacity, entries...]`. -/
def IList.raw (l : IList) : List Int := (l.entries.length : Int) :: l.cap :: l.entries

/-- The scanning branch of `_insert_list`: insert before the first larger
element, drop the id if already present. -/
def insertEntries (id : Int) : List Int → List Int
  | [] => [id]
  | h :: t =>
      if id < h then id :: h :: t
      else if id = h then h :: t
      else h :: insertEntries id t

/-- `_insert_list`: grow (double `list[1]`) when full, then append when the
list is empty or `id` exceeds the last element, else insert in order,
skipping duplicates. -/
def _insert_list (l : IList) (id : Int) : IList :=
  let cap := if (l.entries.length : Int) ≥ l.cap then l.cap * 2 else l.cap
  if l.entries.length = 0 ∨ id > (l.entries.getLast?.getD 0) then
    { cap := cap, entries := l.entries ++ [id] }
  else
    { cap := cap, entries := insertEntries id l.entries }

/-- `_find_list`: linear membership scan with the same early exits. -/
def _find_list (l : IList) (id : Int) : Bool :=
  if l.entries.length = 0 ∨ id > (l.entries.getLast?.getD 0) then false
  else l.entries.contains id

/-! ## Object and engine state -/

/-- `struct aoi_object`.  The `prev[2]`/`next[2]` links live in the two
ordered id lists of `Aoi`; everything else is carried here.  `d0`/`d1`/`e`
are the float fields. -/
structure AoiObject where
  id : Int
  p0 : Int
  p1 : Int
  sp0 : Int
  sp1 : Int
  dp0 : Int
  dp1 : Int
  d0 : ℚ
  d1 : ℚ
  e : ℚ
  p_tick : Int
  n_tick : Int
  type : Int
  speed : Int
  n_list : IList
  o_list : IList
  ud : Int
  deriving DecidableEq

/-- `memset(obj, 0, sizeof *obj)`: the all-zero object
(`type = AOI_OBJECT_INVALID = 0`, null neighbour lists). -/
def AoiObject.zero : AoiObject :=
  { id := 0, p0 := 0, p1 := 0, sp0 := 0, sp1 := 0, dp0 := 0, dp1 := 0,
    d0 := 0, d1 := 0, e := 0, p_tick := 0, n_tick := 0,
    type := 0, speed := 0, n_list := ⟨0, []⟩, o_list := ⟨0, []⟩, ud := 0 }

/-- `struct aoi_event`. -/
structure AoiEvent where
  id : Int
  e : Int
  deriving DecidableEq

/-- `struct aoi`: id counter, the slot table (total function on the hash
range), and the two axis lists as id sequences in head-to-tail order.
The event buffer `elist` is modelled as `aoi_trigger`'s returned list. -/
structure Aoi where
  id : Int
  slot : Int → AoiObject
  xs : List Int
  ys : List Int

/-- `aoi_init`: `memset(aoi, 0, sizeof *aoi)`. -/
def aoiInit : Aoi := { id := 0, slot := fun _ => AoiObject.zero, xs := [], ys := [] }

/-! ## Object pool -/

/-- The body of the `_aoi_next_id` for-loop, fuelled by the remaining
iteration count.  Each probe post-increments `aoi->id`, applies the
wrap-around fix-up for a negative probe, and claims the slot if free. -/
def nextIdLoop : Nat → Aoi → Int × Aoi
  | 0, s => (-1, s)
  | Nat.succ fuel, s =>
      let id := s.id
      let s := { s with id := s.id + 1 }
      let id := if id < 0 then s.id + 0x7fffffff else id
      if (s.slot (AOI_HASH_ID id)).type = AOI_OBJECT_INVALID then
        let obj := { AoiObject.zero with type := AOI_OBJECT_RESERVE, id := id }
        (id, { s with slot := Function.update s.slot (AOI_HASH_ID id) obj })
      else nextIdLoop fuel s

/-- `_aoi_next_id`: one full pass (`AOI_MAX_AOI` probes) or `-1`. -/
def _aoi_next_id (s : Aoi) : Int × Aoi := nextIdLoop 65536 s

/-- `_aoi_object`: O(1) lookup with the stale-handle guard
(`obj->id != id || obj->type == AOI_OBJECT_INVALID`). -/
def _aoi_object (s : Aoi) (id : Int) : Option AoiObject :=
  if id < 0 then none
  else
    let obj := s.slot (AOI_HASH_ID id)
    if obj.id ≠ id ∨ obj.type = AOI_OBJECT_INVALID then none else some obj

/-- `aoi_enter`: allocate an id, link the object at the head of both axis
lists, allocate both neighbour lists (`[0]=0, [1]=AOI_DEF_AOI`), store the
user data. -/
def aoi_enter (s : Aoi) (ud : Int) : Int × Aoi :=
  let r := _aoi_next_id s
  let id := r.1
  let s := r.2
  if id = -1 then (-1, s)
  else
    match _aoi_object s id with
    | none => (-1, s)
    | some obj =>
          let s := { s with xs := id :: s.xs, ys := id :: s.ys }
          let obj := { obj with n_list := ⟨AOI_DEF_AOI, []⟩,
                                o_list := ⟨AOI_DEF_AOI, []⟩, ud := ud }
          (id, { s with slot := Function.update s.slot (AOI_HASH_ID id) obj })

/-- `aoi_leave`: unlink from both axis lists, free the neighbour lists,
`memset` the slot and mark it `AOI_OBJECT_INVALID`. -/
def aoi_leave (s : Aoi) (id : Int) : Aoi :=
  match _aoi_object s id with
  | none => s
  | some _ =>
      let s := { s with xs := s.xs.erase id, ys := s.ys.erase id }
      { s with slot := Function.update s.slot (AOI_HASH_ID id) AoiObject.zero }

/-- `aoi_ud`: stored user data, 0 (NULL) on a stale id. -/
def aoi_ud (s : Aoi) (id : Int) : Int :=
  match _aoi_object s id with
  | none => 0
  | some obj => obj.ud

/-! ## The incremental axis re-sort (`_aoi_update_list`)

The C walk follows `next`/`prev` pointers from the object itself.  On the
list embedding: split the sequence at the object's (first) occurrence,
then walk the tail (for a positive delta) or the reversed prefix (for a
negative delta), re-linking the object after/before the stop point. -/

/-- Split a list at the first occurrence of `x`:
`l = pre ++ x :: post`. -/
def splitFirst : List Int → Int → Option (List Int × List Int)
  | [], _ => none
  | h :: t, x =>
      if h = x then some ([], t)
      else
        match splitFirst t x with
        | none => none
        | some (pre, post) => some (h :: pre, post)

/-- Forward walk of `_aoi_update_list` (`d[i] > 0`): step past successors
whose coordinate is `≤ c`, re-link `x` there.  `post` is the successor
chain of `x`; the result replaces `x :: post`. -/
def moveFwd (coord : Int → Int) (c x : Int) : List Int → List Int
  | [] => [x]
  | h :: t => if coord h > c then x :: h :: t else h :: moveFwd coord c x t

/-- Backward walk (`d[i] < 0`) on the reversed predecessor chain of `x`
(nearest predecessor first): step past predecessors whose coordinate is
`≥ c`, re-link `x` there.  The result (still reversed) replaces
`(pre ++ [x]).reverse`. -/
def moveBwdRev (coord : Int → Int) (c x : Int) : List Int → List Int
  | [] => [x]
  | h :: t => if coord h < c then x :: h :: t else h :: moveBwdRev coord c x t

/-- One axis of `_aoi_update_list`: walk forward on a positive delta,
backward on a negative one, nothing on a zero delta. -/
def relinkAxis (coord : Int → Int) (x c d : Int) (l : List Int) : List Int :=
  if d > 0 then
    match splitFirst l x with
    | none => l
    | some (pre, post) => pre ++ moveFwd coord c x post
  else if d < 0 then
    match splitFirst l x with
    | none => l
    | some (pre, post) => (moveBwdRev coord c x pre.reverse).reverse ++ post
  else l

/-- `_aoi_update_list`: re-sort the object in both axis lists using its
already-updated position and the per-axis deltas `d`. -/
def _aoi_update_list (s : Aoi) (objId : Int) (d0 d1 : Int) : Aoi :=
  let obj := s.slot (AOI_HASH_ID objId)
  { s with
    xs := relinkAxis (fun i => (s.slot (AOI_HASH_ID i)).p0) objId obj.p0 d0 s.xs,
    ys := relinkAxis (fun i => (s.slot (AOI_HASH_ID i)).p1) objId obj.p1 d1 s.ys }

/-! ## Movement engine -/

/-- `aoi_locate`: teleport — set the position, then re-sort with the true
coordinate deltas. -/
def aoi_locate (s : Aoi) (id x y : Int) : Aoi :=
  match _aoi_object s id with
  | none => s
  | some obj =>
      let d0 := x - obj.p0
      let d1 := y - obj.p1
      let obj := { obj with p0 := x, p1 := y }
      let s := { s with slot := Function.update s.slot (AOI_HASH_ID id) obj }
      _aoi_update_list s id d0 d1

/-- `aoi_move`: no-op when `speed <= 0` or the destination equals the
current position; otherwise record start/destination, the unit direction,
the angular rate `e = M_PI*speed/c`, the duration `(int)c / speed`, and
reset the elapsed ticks. -/
def aoi_move (s : Aoi) (id x y : Int) : Aoi :=
  match _aoi_object s id with
  | none => s
  | some obj =>
      if obj.speed ≤ 0 ∨ (x = obj.p0 ∧ y = obj.p1) then s
      else
        let dx := x - obj.p0
        let dy := y - obj.p1
        let c : ℚ := fsqrt (dx * dx + dy * dy)
        let obj := { obj with
          sp0 := obj.p0, sp1 := obj.p1, dp0 := x, dp1 := y,
          d0 := (dx : ℚ) / c, d1 := (dy : ℚ) / c,
          e := ratPi * (obj.speed : ℚ) / c,
          n_tick := (fsqrtInt (dx * dx + dy * dy)).tdiv obj.speed,
          p_tick := 0 }
        { s with slot := Function.update s.slot (AOI_HASH_ID id) obj }

/-- `aoi_speed`: store the new speed; if a move is in flight
(`n_tick > 0`), restart the move toward the same destination. -/
def aoi_speed (s : Aoi) (id speed : Int) : Aoi :=
  match _aoi_object s id with
  | none => s
  | some obj =>
      let obj := { obj with speed := speed }
      let s := { s with slot := Function.update s.slot (AOI_HASH_ID id) obj }
      if obj.n_tick > 0 then aoi_move s obj.id obj.dp0 obj.dp1 else s

/-- `_aoi_object_update`: clamp the tick to the remaining duration, derive
the per-axis walk direction from the sign of the float direction
(`((d[i] > 0) << 1) - 1`), snap to the destination when the duration is
exhausted, else take the interpolated step, then re-sort. -/
def _aoi_object_update (s : Aoi) (objId : Int) (tick : Int) : Aoi :=
  let obj := s.slot (AOI_HASH_ID objId)
  let ti := min tick obj.n_tick
  let obj := { obj with n_tick := obj.n_tick - ti, p_tick := obj.p_tick + ti }
  let d0 : Int := if obj.d0 > 0 then 1 else -1
  let d1 : Int := if obj.d1 > 0 then 1 else -1
  let obj :=
    if obj.n_tick ≤ 0 then
      { obj with p0 := obj.dp0, p1 := obj.dp1 }
    else
      let sq := fsin (obj.e * (obj.p_tick : ℚ)) * fsin (obj.e * (obj.p_tick : ℚ))
      { obj with
        p0 := ratTrunc ((obj.sp0 : ℚ) + obj.d0 * (obj.speed : ℚ) * (obj.p_tick : ℚ)
                + (-1 : ℚ) * obj.d0 * sq),
        p1 := ratTrunc ((obj.sp1 : ℚ) + obj.d1 * (obj.speed : ℚ) * (obj.p_tick : ℚ)
                + (1 : ℚ) * obj.d1 * sq) }
  let s := { s with slot := Function.update s.slot (AOI_HASH_ID objId) obj }
  _aoi_update_list s objId d0 d1

/-- `aoi_update`: advance a moving object; no-op on a stale id, a
non-positive speed, or no remaining duration. -/
def aoi_update (s : Aoi) (id tick : Int) : Aoi :=
  match _aoi_object s id with
  | none => s
  | some obj =>
      if obj.type = AOI_OBJECT_INVALID ∨ obj.speed ≤ 0 then s
      else if obj.n_tick ≤ 0 then s
      else _aoi_object_update s id tick

/-- `aoi_pos`: current position; the C version leaves the out-parameters
untouched on a stale id, modelled as `none`. -/
def aoi_pos (s : Aoi) (id : Int) : Option (Int × Int) :=
  match _aoi_object s id with
  | none => none
  | some obj => some (obj.p0, obj.p1)

/-- `aoi_moving`: `n_tick > 0`, false on a stale id. -/
def aoi_moving (s : Aoi) (id : Int) : Bool :=
  match _aoi_object s id with
  | none => false
  | some obj => obj.n_tick > 0

/-! ## Proximity scan and event differ -/

/-- One direction of the candidate walk in `aoi_trigger`: visit the chain,
stop at the first candidate with `|dx| > leave_r`; within the bound,
insert candidates inside `enter_r`, and candidates inside `leave_r` that
were members of the previous snapshot. -/
def triggerCollect (s : Aoi) (obj : AoiObject) (enter_r leave_r : Int) :
    List Int → IList → IList
  | [], cur => cur
  | pid :: rest, cur =>
      let p := s.slot (AOI_HASH_ID pid)
      let dx := iabs (obj.p0 - p.p0)
      let dy := iabs (obj.p1 - p.p1)
      let d := dx * dx + dy * dy
      if dx > leave_r then cur
      else
        let cur :=
          if d ≤ enter_r * enter_r then _insert_list cur p.id
          else if d ≤ leave_r * leave_r then
            if _find_list obj.o_list p.id then _insert_list cur p.id else cur
          else cur
        triggerCollect s obj enter_r leave_r rest cur

/-- The two-pointer merge loop of `aoi_trigger` over the old snapshot and
the new candidate list, fuelled by the number of remaining loop
iterations (each iteration consumes at least one list element, so
`o.length + n.length` fuel always suffices).  Exhaustion of either side
is checked before the staleness test, so the flush paths emit events
unconditionally — in particular the LEAVE flush emits events for
destroyed ids. -/
def mergeLoop (s : Aoi) : Nat → List Int → List Int → List AoiEvent
  | 0, _, _ => []
  | _ + 1, [], n => n.map fun nid => { id := nid, e := AOI_ENTER }
  | _ + 1, oh :: ot, [] => (oh :: ot).map fun oid => { id := oid, e := AOI_LEAVE }
  | fuel + 1, oh :: ot, nh :: nt =>
      if (_aoi_object s oh).isNone then mergeLoop s fuel ot (nh :: nt)
      else if nh < oh then { id := nh, e := AOI_ENTER } :: mergeLoop s fuel (oh :: ot) nt
      else if nh = oh then mergeLoop s fuel ot nt
      else { id := oh, e := AOI_LEAVE } :: mergeLoop s fuel ot (nh :: nt)

/-- The merge with sufficient fuel for the whole loop. -/
def mergeEvents (s : Aoi) (o n : List Int) : List AoiEvent :=
  mergeLoop s (o.length + n.length) o n

/-- The predecessor chain (nearest first) and successor chain of the
object in the x-axis list, i.e. its `prev[0]`/`next[0]` walks. -/
def trigParts (s : Aoi) (id : Int) : List Int × List Int :=
  (splitFirst s.xs id).getD ([], [])

/-- The full candidate collection of one `aoi_trigger` call: walk the
predecessor chain, then the successor chain, into the reset `n_list`
buffer (count zeroed, capacity kept). -/
def trigCur (s : Aoi) (id : Int) (obj : AoiObject) (enter_r leave_r : Int) : IList :=
  triggerCollect s obj enter_r leave_r (trigParts s id).2
    (triggerCollect s obj enter_r leave_r (trigParts s id).1.reverse
      { cap := obj.n_list.cap, entries := [] })

/-- `aoi_trigger`: collect the candidate set by walking the x-axis list
both ways from the object (reusing the `n_list` buffer with its count
reset), emit all candidates as ENTER when the old snapshot is empty, else
merge-diff the two sorted lists, then swap the buffers
(`n_list := o_list; o_list := cur`). -/
def aoi_trigger (s : Aoi) (id enter_r leave_r : Int) : Aoi × List AoiEvent :=
  match _aoi_object s id with
  | none => (s, [])
  | some obj =>
      let cur := trigCur s id obj enter_r leave_r
      let events :=
        if obj.o_list.entries.length = 0 then
          cur.entries.map fun nid => { id := nid, e := AOI_ENTER }
        else
          mergeEvents s obj.o_list.entries cur.entries
      let obj := { obj with n_list := obj.o_list, o_list := cur }
      ({ s with slot := Function.update s.slot (AOI_HASH_ID id) obj }, events)

/-- The x-axis pruning distance of a candidate (`dx` in the walk). -/
def trigDx (s : Aoi) (obj : AoiObject) (pid : Int) : Int :=
  iabs (obj.p0 - (s.slot (AOI_HASH_ID pid)).p0)

/-- The squared euclidean distance of a candidate (`d` in the walk). -/
def trigD2 (s : Aoi) (obj : AoiObject) (pid : Int) : Int :=
  trigDx s obj pid * trigDx s obj pid +
    iabs (obj.p1 - (s.slot (AOI_HASH_ID pid)).p1) *
      iabs (obj.p1 - (s.slot (AOI_HASH_ID pid)).p1)

/-- The walk's membership test for one non-pruned candidate: inside the
enter radius, or inside the leave radius and in the previous snapshot. -/
def trigPick (s : Aoi) (obj : AoiObject) (enter_r leave_r pid : Int) : Prop :=
  trigD2 s obj pid ≤ enter_r * enter_r ∨
    (¬ trigD2 s obj pid ≤ enter_r * enter_r ∧
     trigD2 s obj pid ≤ leave_r * leave_r ∧
     _find_list obj.o_list ((s.slot (AOI_HASH_ID pid)).id) = true)

/-- `aoi_around`: clamp `n` to the stored count `n_list[0]`, then copy the
first `n` array words starting at index 0 — i.e. from the raw layout
`[count, capacity, entries...]` of the buffer that, after the trigger
swap, holds the previous snapshot.  Returns the C return value and the
ids written to the caller's array. -/
def aoi_around (s : Aoi) (id n : Int) : Int × List Int :=
  match _aoi_object s id with
  | none => (0, [])
  | some obj =>
      let k := if n > (obj.n_list.entries.length : Int)
               then (obj.n_list.entries.length : Int) else n
      (k, obj.n_list.raw.take k.toNat)

/-! ## Observations used by the properties -/

/-- Adjacent pairs have non-decreasing coordinates. -/
def sortedBy (coord : Int → Int) : List Int → Bool
  | [] => true
  | [_] => true
  | a :: b :: t => decide (coord a ≤ coord b) && sortedBy coord (b :: t)

/-- The sort invariant of the x-axis sequence. -/
def xsSorted (s : Aoi) : Bool :=
  sortedBy (fun i => (s.slot (AOI_HASH_ID i)).p0) s.xs

/-- The sort invariant of the y-axis sequence. -/
def ysSorted (s : Aoi) : Bool :=
  sortedBy (fun i => (s.slot (AOI_HASH_ID i)).p1) s.ys

/-! ## Concrete runs used by the claims -/

/-- C1 scenario: A (id 0) at (0,0), B (id 1) at (200,0). -/
def c1Setup : Aoi :=
  aoi_locate (aoi_locate (aoi_enter (aoi_enter aoiInit 0).2 0).2 0 0 0) 1 200 0

def c1Scan1 : Aoi × List AoiEvent := aoi_trigger c1Setup 0 100 130
def c1Scan2 : Aoi × List AoiEvent := aoi_trigger (aoi_locate c1Scan1.1 1 90 0) 0 100 130
def c1Scan3 : Aoi × List AoiEvent := aoi_trigger (aoi_locate c1Scan2.1 1 125 0) 0 100 130
def c1Scan4 : Aoi × List AoiEvent := aoi_trigger (aoi_locate c1Scan3.1 1 140 0) 0 100 130

/-- C2 scenario: A (id 0) at (0,0) with neighbour B (id 1) at (10,0)
recorded by a scan, after which B is destroyed. -/
def c2State : Aoi :=
  aoi_leave
    (aoi_trigger (aoi_locate (aoi_enter (aoi_enter aoiInit 0).2 0).2 1 10 0) 0 100 130).1 1

/-- C4 counterexample run: A (id 0) teleported to (-5,0), then B (id 1) is
created (linked at the head of both axis lists) and teleported to its own
current position (0,0), a zero-delta call that re-sorts nothing. -/
def c4State : Aoi :=
  aoi_locate (aoi_enter (aoi_locate (aoi_enter aoiInit 0).2 0 (-5) 0) 0).2 1 0 0

/-- C6 scenario: A (id 0) at (0,0) with B (id 1) at (10,0) and C (id 2) at
(20,0) in range, scanned twice so both snapshot buffers hold `[1, 2]`. -/
def c6State : Aoi :=
  (aoi_trigger (aoi_trigger
    (aoi_locate (aoi_locate
      (aoi_enter (aoi_enter (aoi_enter aoiInit 0).2 0).2 0).2 1 10 0) 2 20 0)
    0 100 130).1 0 100 130).1

/-- C7/C10 base scenario: entity 0 at (0,0) with speed 5 moving to (10,0)
(duration `(int)sqrtf(100)/5 = 2` ticks). -/
def c10Mid : Aoi :=
  aoi_move (aoi_locate (aoi_speed (aoi_enter aoiInit 0).2 0 5) 0 0 0) 0 10 0

/-- C7/C10 scenario: entity 0 mid-move with its speed set to 0. -/
def c7State : Aoi := aoi_speed c10Mid 0 0

/-- `j` consecutive `aoi_enter` calls. -/
def enterN : Nat → Aoi → Aoi
  | 0, s => s
  | j + 1, s => (aoi_enter (enterN j s) 0).2

/-- C5: the engine after filling the pool to capacity.  (The engine after
the failed 65537-th create is written `(aoi_enter c5Full 0).2` below.) -/
def c5Full : Aoi := enterN 65536 aoiInit

/-- Pool-filling invariant: after `j` creates on a fresh engine the id
counter is `j`, every slot below `j` is allocated and stores its own
index as id, and every slot from `j` up is free. -/
def poolFilled (j : Nat) (s : Aoi) : Prop :=
  s.id = (j : Int) ∧
  ∀ k : Int, 0 ≤ k → k < AOI_MAX_AOI →
    (k < (j : Int) → (s.slot k).type = AOI_OBJECT_RESERVE ∧ (s.slot k).id = k) ∧
    ((j : Int) ≤ k → (s.slot k).type = AOI_OBJECT_INVALID)

/-- Engine states reachable from `aoi_init` through the mutating API
calls (`aoi_enter`, `aoi_leave`, `aoi_locate`, `aoi_move`, `aoi_speed`,
`aoi_update`, `aoi_trigger`; the remaining entry points are read-only). -/
inductive Reachable : Aoi → Prop where
  | init : Reachable aoiInit
  | enter {s : Aoi} (ud : Int) : Reachable s → Reachable (aoi_enter s ud).2
  | leave {s : Aoi} (id : Int) : Reachable s → Reachable (aoi_leave s id)
  | locate {s : Aoi} (id x y : Int) : Reachable s → Reachable (aoi_locate s id x y)
  | move {s : Aoi} (id x y : Int) : Reachable s → Reachable (aoi_move s id x y)
  | speed {s : Aoi} (id sp : Int) : Reachable s → Reachable (aoi_speed s id sp)
  | update {s : Aoi} (id tick : Int) : Reachable s → Reachable (aoi_update s id tick)
  | trigger {s : Aoi} (id er lr : Int) : Reachable s → Reachable (aoi_trigger s id er lr).1

/-- The state invariant maintained by every API call: the allocation
counter is nonnegative and the x-axis list holds distinct, live ids. -/
def AoiInv (s : Aoi) : Prop :=
  0 ≤ s.id ∧ s.xs.Nodup ∧ ∀ i ∈ s.xs, (_aoi_object s i).isSome

/-- The set of currently live ids.  Every live id stores itself in its
hash slot, so the live ids are among the stored ids of the `AOI_MAX_AOI`
slots — in particular there are at most `AOI_MAX_AOI` of them. -/
def liveIds (s : Aoi) : Finset Int :=
  ((Finset.range 65536).image (fun h => (s.slot ((h : Nat) : Int)).id)).filter
    (fun k => (_aoi_object s k).isSome)

/-- The event-bound invariant: every live id is below the allocation
counter, and every live entity's previous snapshot is strictly sorted and
covered by a finite set `F` of at most pool-capacity ids such that every
id of `F` lies below a bound `b ≤` counter and every currently live id is
either in `F` or at least `b` (ids allocated after the snapshot was
taken are at least the counter value of that moment). -/
def EvtInv (s : Aoi) : Prop :=
  (∀ k : Int, (_aoi_object s k).isSome → k < s.id) ∧
  ∀ k : Int, ∀ obj : AoiObject, _aoi_object s k = some obj →
    obj.o_list.entries.Sorted (· < ·) ∧
    ∃ F : Finset Int, ∃ b : Int,
      (∀ j ∈ obj.o_list.entries, j ∈ F) ∧ F.card ≤ 65536 ∧
      (∀ j ∈ F, j < b) ∧ b ≤ s.id ∧
      (∀ j : Int, (_aoi_object s j).isSome → j ∈ F ∨ b ≤ j)

/-! ## C1 -/

/-- C1: in the concrete scenario — A created and positioned at (0,0), B
created and positioned at (200,0), radii `enter_r = 100`, `leave_r = 130`
— the initial scan of A yields no events; after B teleports to (90,0) the
scan yields exactly one ENTER event for B; after B teleports to (125,0)
(inside the hysteresis band) the scan yields no events; after B teleports
to (140,0) the scan yields exactly one LEAVE event for B. -/
theorem c1_concrete_scenario :
    (aoi_enter aoiInit 0).1 = 0 ∧ (aoi_enter (aoi_enter aoiInit 0).2 0).1 = 1 ∧
    c1Scan1.2 = [] ∧
    c1Scan2.2 = [{ id := 1, e := AOI_ENTER }] ∧
    c1Scan3.2 = [] ∧
    c1Scan4.2 = [{ id := 1, e := AOI_LEAVE }] := by decide

/-! ## C2

The claim states that an id in the old snapshot whose entity has been
destroyed is dropped silently regardless of its position in the merge.
The code checks staleness only in the interleaved part of the merge; the
flush path taken when the new candidate list is exhausted first emits
LEAVE events for all remaining old entries without a staleness check.
With old snapshot `[1]`, entity 1 destroyed, and an empty new candidate
set, the scan emits a LEAVE event for the destroyed id 1. -/

/-- C2: failing run for the silent-drop policy.  In `c2State`, entity 1 is
destroyed (`_aoi_object` returns `none`) and A's previous snapshot is
`[1]`, yet the next scan of A emits a LEAVE event for 1 — the claim says
a destroyed id must produce no LEAVE event wherever it falls in the merge. -/
theorem c2_destroyed_id_gets_leave :
    _aoi_object c2State 1 = none ∧
    (c2State.slot 0).o_list.entries = [1] ∧
    (aoi_trigger c2State 0 100 130).2 = [{ id := 1, e := AOI_LEAVE }] := by decide

/-! ## C6

`aoi_around` copies `obj->n_list[0..k-1]`: index 0 is the stored count and
index 1 the stored capacity, the ids only start at index 2 — and after the
buffer swap in `aoi_trigger`, `n_list` is the buffer holding the *previous*
snapshot, not the current one.  In `c6State` the current post-scan
snapshot is `[1, 2]`, but `aoi_around` returns the two header words
`[2, 32]` (count and capacity) instead of the neighbour ids. -/

/-- C6: failing run for `neighborsOf`.  The current post-scan snapshot of
entity 0 is `[1, 2]`, but `aoi_around` with `maxCount = 10` returns the
words `[2, 32]` — the count and capacity header of the stale buffer —
instead of the neighbour ids `[1, 2]`. -/
theorem c6_around_returns_header_words :
    (c6State.slot 0).o_list.entries = [1, 2] ∧
    aoi_around c6State 0 10 = (2, [2, 32]) := by decide

/-! ## C4 (counterexample half)

A new entity is linked at the head of both axis sequences regardless of
its coordinate, and a teleport with zero coordinate delta re-sorts
nothing, so the sort invariant can be violated immediately after an
`aoi_locate` call completes. -/

/-- C4 counterexample: in `c4State` the last completed call is the
teleport `aoi_locate _ 1 0 0`, yet the x-axis sequence is `[1, 0]` with
coordinates `0 > -5` — adjacent entities out of order immediately after a
teleport call. -/
theorem c4_sort_invariant_counterexample :
    c4State.xs = [1, 0] ∧
    (c4State.slot 1).p0 = 0 ∧ (c4State.slot 0).p0 = -5 ∧
    xsSorted c4State = false := by decide

/-! ## C7 (counterexample half)

`aoi_update` returns without touching a mover whose speed is not positive,
so an entity with remaining duration `r > 0` and speed 0 (reachable by
`aoi_speed _ _ 0` mid-move, see C10) is *not* snapped to its destination
by `advance` with `deltaTicks ≥ r`, and `isMoving` stays true. -/

/-- C7 counterexample: in `c7State` entity 0 is live with remaining
duration 2 > 0 and destination (10,0); `aoi_update` with 5 ≥ 2 ticks
leaves it at (0,0) and still "moving", because its speed is 0 — the claim
as stated (without a positive-speed hypothesis) predicts position (10,0)
and `isMoving = false`. -/
theorem c7_advance_counterexample :
    (c7State.slot 0).n_tick = 2 ∧
    ((c7State.slot 0).dp0, (c7State.slot 0).dp1) = (10, 0) ∧
    aoi_moving c7State 0 = true ∧
    aoi_pos (aoi_update c7State 0 5) 0 = some (0, 0) ∧
    aoi_moving (aoi_update c7State 0 5) 0 = true := by decide

/-! ## Basic lookup lemmas -/

theorem _aoi_object_some_iff {s : Aoi} {id : Int} {obj : AoiObject} :
    _aoi_object s id = some obj ↔
      0 ≤ id ∧ s.slot (AOI_HASH_ID id) = obj ∧ obj.id = id ∧
        obj.type ≠ AOI_OBJECT_INVALID := by
  unfold _aoi_object
  by_cases h1 : id < 0
  · rw [if_pos h1]
    simp only [reduceCtorEq, false_iff]
    rintro ⟨h0, -⟩
    omega
  · rw [if_neg h1]
    by_cases h2 : (s.slot (AOI_HASH_ID id)).id ≠ id ∨
        (s.slot (AOI_HASH_ID id)).type = AOI_OBJECT_INVALID
    · rw [if_pos h2]
      simp only [reduceCtorEq, false_iff]
      rintro ⟨-, hslot, hid, hty⟩
      rw [hslot] at h2
      rcases h2 with h2 | h2
      · exact h2 hid
      · exact hty h2
    · rw [if_neg h2]
      push_neg at h2
      constructor
      · intro h
        have h' := Option.some.inj h
        subst h'
        exact ⟨by omega, rfl, h2.1, h2.2⟩
      · rintro ⟨-, hslot, -, -⟩
        rw [hslot]

theorem _aoi_object_update_self {s : Aoi} {id : Int} (obj : AoiObject)
    (h0 : 0 ≤ id) (hid : obj.id = id) (hty : obj.type ≠ AOI_OBJECT_INVALID)
    (xs ys : List Int) (ctr : Int) :
    _aoi_object { id := ctr, slot := Function.update s.slot (AOI_HASH_ID id) obj,
                  xs := xs, ys := ys } id = some obj := by
  rw [_aoi_object_some_iff]
  exact ⟨h0, Function.update_same _ _ _, hid, hty⟩

/-- `_aoi_update_list` only re-links the axis sequences; the slot table
and the id counter are untouched. -/
theorem _aoi_update_list_slot (s : Aoi) (objId d0 d1 : Int) :
    (_aoi_update_list s objId d0 d1).slot = s.slot ∧
    (_aoi_update_list s objId d0 d1).id = s.id := ⟨rfl, rfl⟩

/-! ## C8 -/

/-- C8: `moveTo` (`aoi_move`) leaves the entire engine state unchanged
whenever the id is stale/invalid, the entity's speed is zero or negative,
or the destination equals the entity's current position. -/
theorem c8_moveTo_silent_noop (s : Aoi) (id x y : Int)
    (h : _aoi_object s id = none ∨
         ∃ obj, _aoi_object s id = some obj ∧
           (obj.speed ≤ 0 ∨ (x = obj.p0 ∧ y = obj.p1))) :
    aoi_move s id x y = s := by
  unfold aoi_move
  rcases h with h | ⟨obj, h, hg⟩
  · rw [h]
  · rw [h]
    simp only [if_pos hg]

/-- C8 witness: on the freshly initialized engine every id is stale, so
`aoi_move` is the identity. -/
theorem c8_moveTo_silent_noop_witness : aoi_move aoiInit 5 1 1 = aoiInit :=
  c8_moveTo_silent_noop aoiInit 5 1 1 (Or.inl (by decide))

/-! ## C10 -/

/-- C10: setting the speed of a mid-move entity (`n_tick > 0`) to 0 keeps
the remaining-tick counter positive — `aoi_moving` stays true and the
position is unchanged — while every subsequent `aoi_update` call is a
no-op (the whole state, position and remaining ticks included, is
unchanged). -/
theorem c10_speed_zero_freezes_mover (s : Aoi) (id : Int) (obj : AoiObject)
    (h : _aoi_object s id = some obj) (hnt : 0 < obj.n_tick) :
    aoi_moving (aoi_speed s id 0) id = true ∧
    aoi_pos (aoi_speed s id 0) id = aoi_pos s id ∧
    ∀ tick : Int, aoi_update (aoi_speed s id 0) id tick = aoi_speed s id 0 := by
  obtain ⟨h0, hslot, hid, hty⟩ := _aoi_object_some_iff.mp h
  have hmain : aoi_speed s id 0 =
      { s with slot := Function.update s.slot (AOI_HASH_ID id) ({ obj with speed := 0 }) } := by
    unfold aoi_speed
    rw [h]
    have hlook := @_aoi_object_update_self s id ({ obj with speed := 0 })
      h0 hid hty s.xs s.ys s.id
    simp only [if_pos hnt]
    unfold aoi_move
    rw [show ({ obj with speed := 0 } : AoiObject).id = id from hid] at hlook ⊢
    rw [hlook]
    simp
  have hlook := @_aoi_object_update_self s id ({ obj with speed := 0 })
    h0 hid hty s.xs s.ys s.id
  refine ⟨?_, ?_, ?_⟩
  · rw [hmain]
    unfold aoi_moving
    rw [hlook]
    simpa using hnt
  · rw [hmain]
    unfold aoi_pos
    rw [hlook, h]
  · intro tick
    rw [hmain]
    unfold aoi_update
    rw [hlook]
    simp

/-- C10 witness: `c7State` (entity 0 mid-move, speed already 0) arises
from `aoi_speed _ 0 0` on its mid-move predecessor. -/
theorem c10_speed_zero_freezes_mover_witness :
    aoi_moving (aoi_speed c10Mid 0 0) 0 = true :=
  (c10_speed_zero_freezes_mover c10Mid 0 (c10Mid.slot (AOI_HASH_ID 0))
    (by rfl) (by decide)).1

/-! ## C7 (amended half) -/

theorem _aoi_object_ignores_lists (s : Aoi) (xs ys : List Int) (i : Int) :
    _aoi_object { s with xs := xs, ys := ys } i = _aoi_object s i := rfl

theorem _aoi_object_of_update_list (s : Aoi) (a b c i : Int) :
    _aoi_object (_aoi_update_list s a b c) i = _aoi_object s i := rfl

/-- Equation lemma: `aoi_update` on a live id. -/
theorem aoi_update_eq_of_some {s : Aoi} {id : Int} {obj : AoiObject}
    (h : _aoi_object s id = some obj) (tick : Int) :
    aoi_update s id tick =
      if obj.type = AOI_OBJECT_INVALID ∨ obj.speed ≤ 0 then s
      else if obj.n_tick ≤ 0 then s
      else _aoi_object_update s id tick := by
  unfold aoi_update
  rw [h]

/-- C7 (amended): for a live entity with remaining move duration
`n_tick > 0` and *positive speed*, `advance` (`aoi_update`) with
`deltaTicks ≥ n_tick` clamps the applied ticks to the remaining duration,
sets the position exactly to the move's destination, and `isMoving` is
false afterwards; when the entity is not moving (`n_tick ≤ 0`) `advance`
is a no-op.  (The positive-speed hypothesis is forced by
`c7_advance_counterexample`: a mid-move entity whose speed was reset to 0
is skipped by `aoi_update` entirely.) -/
theorem c7_advance_clamps_and_snaps (s : Aoi) (id tick : Int) (obj : AoiObject)
    (h : _aoi_object s id = some obj) :
    (0 < obj.n_tick → 0 < obj.speed → obj.n_tick ≤ tick →
      aoi_pos (aoi_update s id tick) id = some (obj.dp0, obj.dp1) ∧
      aoi_moving (aoi_update s id tick) id = false) ∧
    (obj.n_tick ≤ 0 → aoi_update s id tick = s) := by
  obtain ⟨h0, hslot, hid, hty⟩ := _aoi_object_some_iff.mp h
  rw [aoi_update_eq_of_some h tick]
  constructor
  · intro hnt hsp htick
    rw [if_neg (by push_neg; exact ⟨hty, by omega⟩), if_neg (by omega)]
    have hobj : _aoi_object (_aoi_object_update s id tick) id =
        some ({ obj with n_tick := obj.n_tick - min tick obj.n_tick,
                         p_tick := obj.p_tick + min tick obj.n_tick,
                         p0 := obj.dp0, p1 := obj.dp1 }) := by
      unfold _aoi_object_update
      rw [hslot, _aoi_object_of_update_list]
      rw [if_pos (by omega : obj.n_tick - min tick obj.n_tick ≤ (0 : Int))]
      exact _aoi_object_update_self
        ({ obj with n_tick := obj.n_tick - min tick obj.n_tick,
                    p_tick := obj.p_tick + min tick obj.n_tick,
                    p0 := obj.dp0, p1 := obj.dp1 })
        h0 hid hty s.xs s.ys s.id
    constructor
    · unfold aoi_pos
      rw [hobj]
    · unfold aoi_moving
      rw [hobj]
      simp only [decide_eq_false_iff_not, not_lt]
      have : min tick obj.n_tick = obj.n_tick := min_eq_right htick
      omega
  · intro hle
    split_ifs <;> rfl

/-- C7 witness: in `c10Mid` entity 0 has remaining duration 2, speed 5;
`aoi_update` with 5 ≥ 2 ticks puts it at its destination (10,0) and ends
the move. -/
theorem c7_advance_clamps_and_snaps_witness :
    aoi_pos (aoi_update c10Mid 0 5) 0 = some (10, 0) ∧
    aoi_moving (aoi_update c10Mid 0 5) 0 = false :=
  (c7_advance_clamps_and_snaps c10Mid 0 5 (c10Mid.slot (AOI_HASH_ID 0)) (by rfl)).1
    (by decide) (by decide) (by decide)

/-! ## C5: pool exhaustion -/

theorem AOI_HASH_ID_small {k : Int} (h0 : 0 ≤ k) (hk : k < AOI_MAX_AOI) :
    AOI_HASH_ID k = k :=
  Int.emod_eq_of_lt h0 hk

theorem AOI_HASH_ID_nonneg (k : Int) : 0 ≤ AOI_HASH_ID k :=
  Int.emod_nonneg _ (by unfold AOI_MAX_AOI; omega)

theorem AOI_HASH_ID_lt (k : Int) : AOI_HASH_ID k < AOI_MAX_AOI :=
  Int.emod_lt_of_pos _ (by unfold AOI_MAX_AOI; omega)

/-- If every slot is occupied, a full allocation pass fails and leaves the
counter advanced by the number of probes. -/
theorem nextIdLoop_all_reserved (fuel : Nat) (s : Aoi) (h0 : 0 ≤ s.id)
    (hfull : ∀ k : Int, 0 ≤ k → k < AOI_MAX_AOI →
      (s.slot k).type ≠ AOI_OBJECT_INVALID) :
    nextIdLoop fuel s = (-1, { s with id := s.id + (fuel : Int) }) := by
  induction fuel generalizing s with
  | zero => simp [nextIdLoop]
  | succ fuel ih =>
      simp only [nextIdLoop]
      rw [if_neg (by omega : ¬ s.id < 0)]
      rw [if_neg (hfull _ (AOI_HASH_ID_nonneg _) (AOI_HASH_ID_lt _))]
      rw [ih { s with id := s.id + 1 } (by simp; omega) (fun k hk hk' => hfull k hk hk')]
      have : s.id + 1 + (fuel : Int) = s.id + ((fuel + 1 : Nat) : Int) := by push_cast; ring
      simp only [this]

/-- A free slot within the pass guarantees a non-negative allocated id. -/
theorem nextIdLoop_finds_free (fuel : Nat) (s : Aoi) (h0 : 0 ≤ s.id)
    (hfree : ∃ j : Nat, j < fuel ∧
      (s.slot (AOI_HASH_ID (s.id + (j : Int)))).type = AOI_OBJECT_INVALID) :
    0 ≤ (nextIdLoop fuel s).1 := by
  induction fuel generalizing s with
  | zero => obtain ⟨j, hj, -⟩ := hfree; omega
  | succ fuel ih =>
      simp only [nextIdLoop]
      rw [if_neg (by omega : ¬ s.id < 0)]
      by_cases hc : (s.slot (AOI_HASH_ID s.id)).type = AOI_OBJECT_INVALID
      · rw [if_pos hc]
        simpa using h0
      · rw [if_neg hc]
        apply ih
        · simp; omega
        · obtain ⟨j, hj, hfree⟩ := hfree
          have hj0 : j ≠ 0 := by
            intro h
            rw [h] at hfree
            simp at hfree
            exact hc hfree
          refine ⟨j - 1, by omega, ?_⟩
          have harith : ({ s with id := s.id + 1 } : Aoi).id + ((j - 1 : Nat) : Int)
              = s.id + (j : Int) := by
            simp
            push_cast [Nat.cast_sub (by omega : 1 ≤ j)]
            ring
          rw [harith]
          exact hfree

/-- On success, the winning probe has claimed its slot. -/
theorem nextIdLoop_success_slot (fuel : Nat) (s : Aoi) (h0 : 0 ≤ s.id)
    (hres : (nextIdLoop fuel s).1 ≠ -1) :
    0 ≤ (nextIdLoop fuel s).1 ∧
    (nextIdLoop fuel s).2.slot (AOI_HASH_ID (nextIdLoop fuel s).1) =
      { AoiObject.zero with type := AOI_OBJECT_RESERVE, id := (nextIdLoop fuel s).1 } := by
  induction fuel generalizing s with
  | zero => simp [nextIdLoop] at hres
  | succ fuel ih =>
      simp only [nextIdLoop] at hres ⊢
      rw [if_neg (by omega : ¬ s.id < 0)] at hres ⊢
      by_cases hc : (s.slot (AOI_HASH_ID s.id)).type = AOI_OBJECT_INVALID
      · rw [if_pos hc] at hres ⊢
        exact ⟨h0, Function.update_same _ _ _⟩
      · rw [if_neg hc] at hres ⊢
        exact ih { s with id := s.id + 1 } (by simp; omega) hres

/-- `aoi_enter` succeeds exactly when the allocator does, returning the
allocated id. -/
theorem aoi_enter_fst_of_success {s : Aoi} (h0 : 0 ≤ s.id)
    (hres : (_aoi_next_id s).1 ≠ -1) :
    (aoi_enter s 0).1 = (_aoi_next_id s).1 := by
  obtain ⟨hpos, hslot⟩ := nextIdLoop_success_slot 65536 s h0 hres
  unfold aoi_enter
  rw [if_neg hres]
  have hobj : _aoi_object (_aoi_next_id s).2 (_aoi_next_id s).1 =
      some ({ AoiObject.zero with type := AOI_OBJECT_RESERVE, id := (_aoi_next_id s).1 }) := by
    rw [_aoi_object_some_iff]
    refine ⟨hpos, hslot, rfl, ?_⟩
    show AOI_OBJECT_RESERVE ≠ AOI_OBJECT_INVALID
    decide
  rw [hobj]

/-- One unfolding step of the allocator loop. -/
theorem nextIdLoop_succ (fuel : Nat) (s : Aoi) :
    nextIdLoop (fuel + 1) s =
      (if (s.slot (AOI_HASH_ID (if s.id < 0 then s.id + 1 + 0x7fffffff else s.id))).type = AOI_OBJECT_INVALID then
        (if s.id < 0 then s.id + 1 + 0x7fffffff else s.id,
         { id := s.id + 1,
           slot := Function.update s.slot (AOI_HASH_ID (if s.id < 0 then s.id + 1 + 0x7fffffff else s.id)) { AoiObject.zero with type := AOI_OBJECT_RESERVE, id := if s.id < 0 then s.id + 1 + 0x7fffffff else s.id },
           xs := s.xs, ys := s.ys })
      else nextIdLoop fuel { id := s.id + 1, slot := s.slot, xs := s.xs, ys := s.ys }) :=
  rfl

/-- One-probe success of the allocator when the slot at the counter's hash
is free. -/
theorem nextIdLoop_first_free {s : Aoi} (h0 : 0 ≤ s.id)
    (hfree : (s.slot (AOI_HASH_ID s.id)).type = AOI_OBJECT_INVALID) :
    _aoi_next_id s =
      (s.id,
       { id := s.id + 1,
         slot := Function.update s.slot (AOI_HASH_ID s.id) { AoiObject.zero with type := AOI_OBJECT_RESERVE, id := s.id },
         xs := s.xs, ys := s.ys }) := by
  unfold _aoi_next_id
  rw [show (65536 : Nat) = 65535 + 1 from rfl, nextIdLoop_succ]
  rw [if_neg (by omega : ¬ s.id < 0)]
  rw [if_pos hfree]

/-- `aoi_enter` on a state whose counter hashes to a free slot: the new
object is fully initialized and linked at the head of both lists. -/
theorem aoi_enter_of_first_free {s : Aoi} (h0 : 0 ≤ s.id)
    (hfree : (s.slot (AOI_HASH_ID s.id)).type = AOI_OBJECT_INVALID) :
    aoi_enter s 0 =
      (s.id,
       { id := s.id + 1,
         slot := Function.update s.slot (AOI_HASH_ID s.id) { AoiObject.zero with type := AOI_OBJECT_RESERVE, id := s.id, n_list := ⟨AOI_DEF_AOI, []⟩, o_list := ⟨AOI_DEF_AOI, []⟩ },
         xs := s.id :: s.xs, ys := s.id :: s.ys }) := by
  have hnext := nextIdLoop_first_free h0 hfree
  have hne : ¬ s.id = -1 := by omega
  unfold aoi_enter
  rw [hnext]
  simp only
  rw [if_neg hne]
  rw [_aoi_object_update_self
    ({ AoiObject.zero with type := AOI_OBJECT_RESERVE, id := s.id }) h0 rfl
    (by decide : AOI_OBJECT_RESERVE ≠ AOI_OBJECT_INVALID) s.xs s.ys (s.id + 1)]
  simp only
  rw [Function.update_idem]
  rfl

theorem poolFilled_init : poolFilled 0 aoiInit := by
  refine ⟨rfl, fun k hk hk' => ⟨fun h => absurd h (by omega), fun _ => rfl⟩⟩

/-- One create on a partially filled pool allocates the next id. -/
theorem poolFilled_step {j : Nat} {s : Aoi} (hj : j < 65536) (h : poolFilled j s) :
    (aoi_enter s 0).1 = (j : Int) ∧ poolFilled (j + 1) (aoi_enter s 0).2 := by
  obtain ⟨hid, hslots⟩ := h
  have hj0 : (0 : Int) ≤ (j : Int) := by positivity
  have hjlt : (j : Int) < AOI_MAX_AOI := by
    show (j : Int) < 65536
    exact_mod_cast hj
  have hhash : AOI_HASH_ID s.id = (j : Int) := by
    rw [hid]
    exact AOI_HASH_ID_small hj0 hjlt
  have hfree : (s.slot (AOI_HASH_ID s.id)).type = AOI_OBJECT_INVALID := by
    rw [hid, AOI_HASH_ID_small hj0 hjlt]
    exact (hslots _ hj0 hjlt).2 (le_refl _)
  have henter := @aoi_enter_of_first_free s (by rw [hid]; exact hj0) hfree
  have hP : poolFilled (j + 1)
      { id := s.id + 1,
        slot := Function.update s.slot (AOI_HASH_ID s.id) { AoiObject.zero with type := AOI_OBJECT_RESERVE, id := s.id, n_list := ⟨AOI_DEF_AOI, []⟩, o_list := ⟨AOI_DEF_AOI, []⟩ },
        xs := s.id :: s.xs, ys := s.id :: s.ys } := by
    constructor
    · show s.id + 1 = ((j + 1 : Nat) : Int)
      rw [hid]
      push_cast
      ring
    · intro k hk hklt
      dsimp only
      by_cases hkj : k = (j : Int)
      · have hupd : Function.update s.slot (AOI_HASH_ID s.id)
            ({ AoiObject.zero with type := AOI_OBJECT_RESERVE, id := s.id, n_list := ⟨AOI_DEF_AOI, []⟩, o_list := ⟨AOI_DEF_AOI, []⟩ }) k =
            { AoiObject.zero with type := AOI_OBJECT_RESERVE, id := s.id, n_list := ⟨AOI_DEF_AOI, []⟩, o_list := ⟨AOI_DEF_AOI, []⟩ } := by
          rw [hkj, ← hhash]
          exact Function.update_same _ _ _
        rw [hupd]
        constructor
        · intro _
          exact ⟨rfl, by show s.id = k; rw [hid, hkj]⟩
        · intro hge
          exfalso
          rw [hkj] at hge
          push_cast at hge
          omega
      · have hupd : Function.update s.slot (AOI_HASH_ID s.id)
            ({ AoiObject.zero with type := AOI_OBJECT_RESERVE, id := s.id, n_list := ⟨AOI_DEF_AOI, []⟩, o_list := ⟨AOI_DEF_AOI, []⟩ }) k = s.slot k := by
          apply Function.update_noteq
          rw [hhash]
          exact hkj
        rw [hupd]
        constructor
        · intro hlt
          refine (hslots k hk hklt).1 ?_
          have hne : k ≠ (j : Int) := hkj
          push_cast at hlt
          omega
        · intro hge
          refine (hslots k hk hklt).2 ?_
          push_cast at hge
          omega
  rw [henter]
  exact ⟨hid, hP⟩

theorem poolFilled_enterN (j : Nat) : j ≤ 65536 → poolFilled j (enterN j aoiInit) := by
  induction j with
  | zero => intro _; exact poolFilled_init
  | succ j ih =>
      intro hj
      have hstep := (poolFilled_step (by omega) (ih (by omega))).2
      simpa [enterN] using hstep

/-- Equation lemma: `aoi_leave` on a live id. -/
theorem aoi_leave_eq_of_some {s : Aoi} {id : Int} {obj : AoiObject}
    (h : _aoi_object s id = some obj) :
    aoi_leave s id =
      { id := s.id, slot := Function.update s.slot (AOI_HASH_ID id) AoiObject.zero,
        xs := s.xs.erase id, ys := s.ys.erase id } := by
  unfold aoi_leave
  rw [h]

/-- The full pool: every slot of `c5Full` is allocated and stores its own
index; the counter sits at the capacity. -/
theorem c5Full_filled : poolFilled 65536 c5Full := poolFilled_enterN 65536 (le_refl _)

theorem c5Full_id : c5Full.id = AOI_MAX_AOI := by
  rw [c5Full_filled.1]
  show ((65536 : Nat) : Int) = (65536 : Int)
  norm_num

theorem c5Full_slots (k : Int) (hk : 0 ≤ k) (hklt : k < AOI_MAX_AOI) :
    (c5Full.slot k).type = AOI_OBJECT_RESERVE ∧ (c5Full.slot k).id = k := by
  refine (c5Full_filled.2 k hk hklt).1 ?_
  show k < ((65536 : Nat) : Int)
  push_cast
  exact hklt

/-- Equation lemma: `aoi_enter` when the allocator fails. -/
theorem aoi_enter_of_fail {s t : Aoi} (hfail : _aoi_next_id s = (-1, t)) :
    aoi_enter s 0 = (-1, t) := by
  unfold aoi_enter
  rw [hfail]
  rfl

/-- The failed 65537-th create returns -1 and only advances the
allocation counter (by a full pass of probes). -/
theorem c5Fail_eq :
    aoi_enter c5Full 0 =
      (-1, { id := c5Full.id + 65536, slot := c5Full.slot, xs := c5Full.xs, ys := c5Full.ys }) := by
  have h0 : 0 ≤ c5Full.id := by rw [c5Full_id]; decide
  have hfail := nextIdLoop_all_reserved 65536 c5Full h0 (fun k hk hklt => by
    rw [(c5Full_slots k hk hklt).1]
    decide)
  have hcast : ((65536 : Nat) : Int) = (65536 : Int) := by push_cast
  rw [hcast] at hfail
  exact aoi_enter_of_fail hfail

theorem pair_snd {α β : Type} (a : α) (b : β) : (a, b).2 = b := rfl

/-- Liveness over a full slot table: exactly the ids `0 .. 65535` are
live, whatever the counter and axis lists. -/
theorem full_pool_live (sl : Int → AoiObject)
    (hslots : ∀ k : Int, 0 ≤ k → k < AOI_MAX_AOI →
      (sl k).type = AOI_OBJECT_RESERVE ∧ (sl k).id = k)
    (ctr : Int) (xs ys : List Int) (k : Int) :
    _aoi_object { id := ctr, slot := sl, xs := xs, ys := ys } k = none ↔
      ¬ (0 ≤ k ∧ k < 65536) := by
  unfold _aoi_object
  by_cases hneg : k < 0
  · rw [if_pos hneg]
    simp only [true_iff]
    omega
  · rw [if_neg hneg]
    by_cases hlt : k < 65536
    · have hk := hslots k (by omega) (by show k < 65536; omega)
      rw [if_neg]
      · simp only [reduceCtorEq, false_iff]
        omega
      · push_neg
        show (sl (AOI_HASH_ID k)).id = k ∧ (sl (AOI_HASH_ID k)).type ≠ AOI_OBJECT_INVALID
        rw [AOI_HASH_ID_small (by omega) (by show k < 65536; omega)]
        refine ⟨hk.2, ?_⟩
        rw [hk.1]
        decide
    · have hk := hslots (AOI_HASH_ID k) (AOI_HASH_ID_nonneg k) (AOI_HASH_ID_lt k)
      rw [if_pos]
      · simp only [true_iff]
        omega
      · left
        show (sl (AOI_HASH_ID k)).id ≠ k
        rw [hk.2]
        have hlt' := AOI_HASH_ID_lt k
        intro hcontra
        rw [hcontra] at hlt'
        revert hlt'
        show ¬ (k < AOI_MAX_AOI)
        show ¬ (k < 65536)
        omega

/-- Destroying any live id of a full pool whose counter is a multiple of
the capacity lets the next create succeed: the allocator's scan reaches
the freed slot within one pass. -/
theorem full_after_destroy (sl : Int → AoiObject)
    (hslots : ∀ k : Int, 0 ≤ k → k < AOI_MAX_AOI →
      (sl k).type = AOI_OBJECT_RESERVE ∧ (sl k).id = k)
    (ctr : Int) (hctr : 0 ≤ ctr) (hctrMod : AOI_HASH_ID ctr = 0)
    (xs ys : List Int) (k : Int) (hk : 0 ≤ k) (hklt : k < 65536) :
    (aoi_enter (aoi_leave { id := ctr, slot := sl, xs := xs, ys := ys } k) 0).1 ≠ -1 := by
  have hkM : k < AOI_MAX_AOI := by show k < 65536; omega
  have hsl := hslots k hk hkM
  have hlook : _aoi_object { id := ctr, slot := sl, xs := xs, ys := ys } k = some (sl k) := by
    rw [_aoi_object_some_iff]
    refine ⟨hk, ?_, hsl.2, ?_⟩
    · show sl (AOI_HASH_ID k) = sl k
      rw [AOI_HASH_ID_small hk hkM]
    · rw [hsl.1]
      decide
  rw [aoi_leave_eq_of_some hlook]
  have hfree : ((Function.update sl (AOI_HASH_ID k) AoiObject.zero)
      (AOI_HASH_ID (ctr + ((k.toNat : Nat) : Int)))).type = AOI_OBJECT_INVALID := by
    have hKto : ((k.toNat : Nat) : Int) = k := Int.toNat_of_nonneg hk
    have hhash : AOI_HASH_ID (ctr + k) = AOI_HASH_ID k := by
      show (ctr + k) % AOI_MAX_AOI = k % AOI_MAX_AOI
      show (ctr + k) % 65536 = k % 65536
      have hc : ctr % 65536 = 0 := hctrMod
      omega
    rw [hKto, hhash, Function.update_same]
    rfl
  have hfind := nextIdLoop_finds_free 65536
    { id := ctr, slot := Function.update sl (AOI_HASH_ID k) AoiObject.zero,
      xs := xs.erase k, ys := ys.erase k }
    hctr ⟨k.toNat, by omega, hfree⟩
  have hne : (_aoi_next_id { id := ctr, slot := Function.update sl (AOI_HASH_ID k) AoiObject.zero, xs := xs.erase k, ys := ys.erase k }).1 ≠ -1 := by
    unfold _aoi_next_id
    omega
  rw [aoi_enter_fst_of_success hctr hne]
  unfold _aoi_next_id
  omega

/-- C5: on a fresh engine the first 65536 (= pool capacity) creates all
succeed, returning the ids 0 .. 65535; the 65537-th create fails with the
sentinel -1 (distinct from every valid id, which are exactly 0 .. 65535
by the third conjunct); and after destroying any live id, the next create
succeeds again. -/
theorem c5_pool_exhaustion :
    (∀ j : Nat, j < 65536 → (aoi_enter (enterN j aoiInit) 0).1 = (j : Int)) ∧
    (aoi_enter c5Full 0).1 = -1 ∧
    (∀ k : Int, _aoi_object (aoi_enter c5Full 0).2 k = none ↔ ¬ (0 ≤ k ∧ k < 65536)) ∧
    (∀ k : Int, 0 ≤ k → k < 65536 →
      (aoi_enter (aoi_leave (aoi_enter c5Full 0).2 k) 0).1 ≠ -1) := by
  have hctr : (0 : Int) ≤ c5Full.id + 65536 := by rw [c5Full_id]; decide
  have hctrMod : AOI_HASH_ID (c5Full.id + 65536) = 0 := by
    rw [c5Full_id]
    decide
  refine ⟨?_, ?_, ?_, ?_⟩
  · intro j hj
    exact (poolFilled_step hj (poolFilled_enterN j (by omega))).1
  · rw [c5Fail_eq]
  · intro k
    rw [c5Fail_eq, pair_snd]
    exact full_pool_live c5Full.slot c5Full_slots _ _ _ k
  · intro k hk hklt
    rw [c5Fail_eq, pair_snd]
    exact full_after_destroy c5Full.slot c5Full_slots _ hctr hctrMod _ _ k hk hklt

/-- C5 witness: the first create on the fresh engine returns id 0, and in
the exhausted-then-failed state destroying id 0 lets the next create
succeed. -/
theorem c5_pool_exhaustion_witness :
    (aoi_enter (enterN 0 aoiInit) 0).1 = ((0 : Nat) : Int) ∧
    (aoi_enter (aoi_leave (aoi_enter c5Full 0).2 0) 0).1 ≠ -1 :=
  ⟨c5_pool_exhaustion.1 0 (by decide), c5_pool_exhaustion.2.2.2 0 (by decide) (by decide)⟩

/-! ## Sorted-unique list infrastructure for the scan -/

theorem mem_insertEntries (a b : Int) (l : List Int) :
    b ∈ insertEntries a l ↔ b = a ∨ b ∈ l := by
  induction l with
  | nil => simp [insertEntries]
  | cons h t ih =>
      unfold insertEntries
      split_ifs with h1 h2
      · simp [List.mem_cons]
      · subst h2
        simp only [List.mem_cons]
        tauto
      · simp only [List.mem_cons, ih]
        tauto

theorem sorted_insertEntries (a : Int) (l : List Int)
    (hl : l.Sorted (· < ·)) : (insertEntries a l).Sorted (· < ·) := by
  induction l with
  | nil => simp [insertEntries]
  | cons h t ih =>
      rw [List.sorted_cons] at hl
      unfold insertEntries
      split_ifs with h1 h2
      · rw [List.sorted_cons]
        refine ⟨?_, List.sorted_cons.mpr hl⟩
        intro b hb
        rcases List.mem_cons.mp hb with rfl | hb
        · exact h1
        · exact lt_trans h1 (hl.1 b hb)
      · exact List.sorted_cons.mpr hl
      · rw [List.sorted_cons]
        refine ⟨?_, ih hl.2⟩
        intro b hb
        rcases (mem_insertEntries a b t).mp hb with rfl | hb
        · omega
        · exact hl.1 b hb

theorem insert_list_entries (l : IList) (a : Int) :
    (_insert_list l a).entries =
      if l.entries.length = 0 ∨ a > (l.entries.getLast?.getD 0) then l.entries ++ [a]
      else insertEntries a l.entries := by
  unfold _insert_list
  split_ifs <;> rfl

theorem mem_insert_list (l : IList) (a b : Int) :
    b ∈ (_insert_list l a).entries ↔ b = a ∨ b ∈ l.entries := by
  rw [insert_list_entries]
  split_ifs with h
  · simp only [List.mem_append, List.mem_singleton]
    tauto
  · exact mem_insertEntries a b l.entries

/-- Every member of a strictly sorted list is bounded by its last
element. -/
theorem mem_le_getLastD :
    ∀ (l : List Int), l.Sorted (· < ·) → ∀ b ∈ l, ∀ d : Int, b ≤ l.getLast?.getD d
  | [], _, b, hb, _ => absurd hb (List.not_mem_nil b)
  | [x], _, b, hb, d => by
      simp only [List.mem_singleton] at hb
      subst hb
      simp [List.getLast?]
  | x :: y :: t, hl, b, hb, d => by
      rw [List.getLast?_cons_cons]
      rw [List.sorted_cons] at hl
      rcases List.mem_cons.mp hb with rfl | hb
      · have hy := mem_le_getLastD (y :: t) hl.2 y (List.mem_cons_self _ _) d
        have hxy := hl.1 y (List.mem_cons_self _ _)
        omega
      · exact mem_le_getLastD (y :: t) hl.2 b hb d

theorem sorted_insert_list (l : IList) (a : Int)
    (hl : l.entries.Sorted (· < ·)) : ((_insert_list l a).entries).Sorted (· < ·) := by
  rw [insert_list_entries]
  split_ifs with h
  · rcases h with h | h
    · rw [List.length_eq_zero.mp h]
      simp
    · rw [List.Sorted, List.pairwise_append]
      refine ⟨hl, List.pairwise_singleton _ _, ?_⟩
      intro b hb c hc
      rw [List.mem_singleton] at hc
      subst hc
      have := mem_le_getLastD l.entries hl b hb 0
      omega
  · exact sorted_insertEntries a l.entries hl

/-- `_find_list` decides membership on a sorted list. -/
theorem find_list_iff (l : IList) (hl : l.entries.Sorted (· < ·)) (b : Int) :
    _find_list l b = true ↔ b ∈ l.entries := by
  unfold _find_list
  split_ifs with h
  · simp only [Bool.false_eq_true, false_iff]
    intro hb
    rcases h with h | h
    · rw [List.length_eq_zero.mp h] at hb
      cases hb
    · have := mem_le_getLastD l.entries hl b hb 0
      omega
  · exact List.elem_iff

/-- Two strictly sorted integer lists with the same members are equal. -/
theorem sorted_ext :
    ∀ (l₁ l₂ : List Int), l₁.Sorted (· < ·) → l₂.Sorted (· < ·) →
      (∀ b, b ∈ l₁ ↔ b ∈ l₂) → l₁ = l₂
  | [], [], _, _, _ => rfl
  | [], h₂ :: t₂, _, _, hm => absurd ((hm h₂).mpr (List.mem_cons_self _ _)) (List.not_mem_nil _)
  | h₁ :: t₁, [], _, _, hm => absurd ((hm h₁).mp (List.mem_cons_self _ _)) (List.not_mem_nil _)
  | h₁ :: t₁, h₂ :: t₂, hs₁, hs₂, hm => by
      rw [List.sorted_cons] at hs₁ hs₂
      have hh : h₁ = h₂ := by
        rcases List.mem_cons.mp ((hm h₁).mp (List.mem_cons_self _ _)) with h | h
        · exact h
        · rcases List.mem_cons.mp ((hm h₂).mpr (List.mem_cons_self _ _)) with h' | h'
          · omega
          · have := hs₁.1 h₂ h'
            have := hs₂.1 h₁ h
            omega
      subst hh
      have ht : t₁ = t₂ := by
        refine sorted_ext t₁ t₂ hs₁.2 hs₂.2 ?_
        intro b
        constructor
        · intro hb
          have hbne : b ≠ h₁ := by
            intro hcontra
            subst hcontra
            exact absurd (hs₁.1 b hb) (lt_irrefl b)
          rcases List.mem_cons.mp ((hm b).mp (List.mem_cons.mpr (Or.inr hb))) with h | h
          · exact absurd h hbne
          · exact h
        · intro hb
          have hbne : b ≠ h₁ := by
            intro hcontra
            subst hcontra
            exact absurd (hs₂.1 b hb) (lt_irrefl b)
          rcases List.mem_cons.mp ((hm b).mpr (List.mem_cons.mpr (Or.inr hb))) with h | h
          · exact absurd h hbne
          · exact h
      rw [ht]

/-! ## The candidate walk -/

theorem triggerCollect_cons (s : Aoi) (obj : AoiObject) (er lr pid : Int)
    (rest : List Int) (cur : IList) :
    triggerCollect s obj er lr (pid :: rest) cur =
      if trigDx s obj pid > lr then cur
      else triggerCollect s obj er lr rest
        (if trigD2 s obj pid ≤ er * er then
          _insert_list cur ((s.slot (AOI_HASH_ID pid)).id)
         else if trigD2 s obj pid ≤ lr * lr then
           (if _find_list obj.o_list ((s.slot (AOI_HASH_ID pid)).id) then
             _insert_list cur ((s.slot (AOI_HASH_ID pid)).id)
            else cur)
         else cur) := rfl

theorem mem_triggerCollect (s : Aoi) (obj : AoiObject) (er lr : Int) :
    ∀ (w : List Int) (cur : IList) (b : Int),
      b ∈ (triggerCollect s obj er lr w cur).entries ↔
        b ∈ cur.entries ∨
          ∃ pid ∈ w.takeWhile (fun pid => decide (¬ trigDx s obj pid > lr)),
            trigPick s obj er lr pid ∧ b = (s.slot (AOI_HASH_ID pid)).id := by
  intro w
  induction w with
  | nil =>
      intro cur b
      simp [triggerCollect]
  | cons pid rest ih =>
      intro cur b
      rw [List.takeWhile_cons]
      by_cases hdx : trigDx s obj pid > lr
      · rw [if_neg (by simpa using hdx), triggerCollect_cons, if_pos hdx]
        simp
      · rw [if_pos (by simpa using hdx), triggerCollect_cons, if_neg hdx, ih]
        unfold trigPick
        simp only [List.mem_cons]
        constructor
        · rintro (hcur | ⟨qid, hq, hpick, hb⟩)
          · split_ifs at hcur with h1 h2 h3
            · rcases (mem_insert_list _ _ _).mp hcur with rfl | hcur
              · exact Or.inr ⟨pid, Or.inl rfl, Or.inl h1, rfl⟩
              · exact Or.inl hcur
            · rcases (mem_insert_list _ _ _).mp hcur with rfl | hcur
              · exact Or.inr ⟨pid, Or.inl rfl, Or.inr ⟨h1, h2, h3⟩, rfl⟩
              · exact Or.inl hcur
            · exact Or.inl hcur
            · exact Or.inl hcur
          · exact Or.inr ⟨qid, Or.inr hq, hpick, hb⟩
        · rintro (hcur | ⟨qid, (rfl | hq), hpick, hb⟩)
          · left
            split_ifs with h1 h2 h3
            · exact (mem_insert_list _ _ _).mpr (Or.inr hcur)
            · exact (mem_insert_list _ _ _).mpr (Or.inr hcur)
            · exact hcur
            · exact hcur
          · left
            rcases hpick with h1 | ⟨h1, h2, h3⟩
            · rw [if_pos h1]
              exact (mem_insert_list _ _ _).mpr (Or.inl hb)
            · rw [if_neg h1, if_pos h2, if_pos h3]
              exact (mem_insert_list _ _ _).mpr (Or.inl hb)
          · exact Or.inr ⟨qid, hq, hpick, hb⟩

theorem sorted_triggerCollect (s : Aoi) (obj : AoiObject) (er lr : Int) :
    ∀ (w : List Int) (cur : IList), cur.entries.Sorted (· < ·) →
      ((triggerCollect s obj er lr w cur).entries).Sorted (· < ·) := by
  intro w
  induction w with
  | nil =>
      intro cur h
      exact h
  | cons pid rest ih =>
      intro cur h
      rw [triggerCollect_cons]
      split_ifs with h1 h2 h3 h4
      · exact h
      · exact ih _ (sorted_insert_list _ _ h)
      · exact ih _ (sorted_insert_list _ _ h)
      · exact ih _ h
      · exact ih _ h

theorem sorted_trigCur (s : Aoi) (id : Int) (obj : AoiObject) (er lr : Int) :
    ((trigCur s id obj er lr).entries).Sorted (· < ·) := by
  unfold trigCur
  apply sorted_triggerCollect
  apply sorted_triggerCollect
  simp

/-- Equation lemma: `aoi_trigger` on a live id. -/
theorem aoi_trigger_eq_of_some {s : Aoi} {id : Int} {obj : AoiObject}
    (h : _aoi_object s id = some obj) (er lr : Int) :
    aoi_trigger s id er lr =
      ({ s with slot := Function.update s.slot (AOI_HASH_ID id) ({ obj with n_list := obj.o_list, o_list := trigCur s id obj er lr }) },
       if obj.o_list.entries.length = 0 then
         (trigCur s id obj er lr).entries.map fun nid => { id := nid, e := AOI_ENTER }
       else mergeEvents s obj.o_list.entries (trigCur s id obj er lr).entries) := by
  unfold aoi_trigger
  rw [h]

/-- Equation lemma: `aoi_trigger` on a stale id. -/
theorem aoi_trigger_eq_of_none {s : Aoi} {id : Int}
    (h : _aoi_object s id = none) (er lr : Int) :
    aoi_trigger s id er lr = (s, []) := by
  unfold aoi_trigger
  rw [h]

theorem pair_fst {α β : Type} (a : α) (b : β) : (a, b).1 = a := rfl

theorem splitFirst_eq (x : Int) :
    ∀ (l : List Int) (pre post : List Int),
      splitFirst l x = some (pre, post) → l = pre ++ x :: post := by
  intro l
  induction l with
  | nil => intro pre post h; cases h
  | cons h t ih =>
      intro pre post hsp
      unfold splitFirst at hsp
      split_ifs at hsp with hx
      · cases hsp
        subst hx
        rfl
      · revert hsp
        cases hs : splitFirst t x with
        | none => intro hsp; cases hsp
        | some pp =>
            intro hsp
            cases hsp
            rw [List.cons_append]
            rw [← ih pp.1 pp.2 (by rw [hs])]

/-- Members of the two trigger walk chains are members of the x list. -/
theorem trigParts_sub (s : Aoi) (id pid : Int) :
    (pid ∈ (trigParts s id).1 → pid ∈ s.xs) ∧ (pid ∈ (trigParts s id).2 → pid ∈ s.xs) := by
  unfold trigParts
  cases hs : splitFirst s.xs id with
  | none => simp
  | some pp =>
      have := splitFirst_eq id s.xs pp.1 pp.2 (by rw [hs])
      rw [this]
      simp only [Option.getD_some, List.mem_append, List.mem_cons]
      tauto

theorem takeWhile_congr {p q : Int → Bool} :
    ∀ l : List Int, (∀ a ∈ l, p a = q a) → l.takeWhile p = l.takeWhile q := by
  intro l
  induction l with
  | nil => intro _; rfl
  | cons h t ih =>
      intro hpq
      rw [List.takeWhile_cons, List.takeWhile_cons, hpq h (List.mem_cons_self _ _),
        ih (fun a ha => hpq a (List.mem_cons.mpr (Or.inr ha)))]

/-- Membership in the full candidate collection. -/
theorem mem_trigCur (s : Aoi) (id : Int) (obj : AoiObject) (er lr b : Int) :
    b ∈ (trigCur s id obj er lr).entries ↔
      ∃ pid ∈ (trigParts s id).1.reverse.takeWhile
            (fun pid => decide (¬ trigDx s obj pid > lr)) ++
          (trigParts s id).2.takeWhile (fun pid => decide (¬ trigDx s obj pid > lr)),
        trigPick s obj er lr pid ∧ b = (s.slot (AOI_HASH_ID pid)).id := by
  unfold trigCur
  rw [mem_triggerCollect, mem_triggerCollect]
  simp only [List.mem_append, List.not_mem_nil, false_or]
  constructor
  · rintro (⟨pid, hp, hrest⟩ | ⟨pid, hp, hrest⟩)
    · exact ⟨pid, Or.inl hp, hrest⟩
    · exact ⟨pid, Or.inr hp, hrest⟩
  · rintro ⟨pid, hp | hp, hrest⟩
    · exact Or.inl ⟨pid, hp, hrest⟩
    · exact Or.inr ⟨pid, hp, hrest⟩

/-- The merge of a list of live ids against itself yields no events. -/
theorem mergeLoop_refl (s : Aoi) :
    ∀ (fuel : Nat) (l : List Int), l.length ≤ fuel →
      (∀ b ∈ l, (_aoi_object s b).isSome) → mergeLoop s fuel l l = [] := by
  intro fuel
  induction fuel with
  | zero =>
      intro l _ _
      rfl
  | succ fuel ih =>
      intro l hl hlive
      cases l with
      | nil => rfl
      | cons h t =>
          have hsome : ¬ ((_aoi_object s h).isNone = true) := by
            rw [Option.isNone_iff_eq_none]
            intro hn
            have := hlive h (List.mem_cons_self _ _)
            rw [hn] at this
            cases this
          simp only [mergeLoop]
          rw [if_neg hsome, if_neg (lt_irrefl h), if_pos trivial]
          exact ih t (by simpa using Nat.le_of_succ_le_succ (by simpa using hl))
            (fun b hb => hlive b (List.mem_cons.mpr (Or.inr hb)))

theorem mergeEvents_refl (s : Aoi) (l : List Int)
    (hlive : ∀ b ∈ l, (_aoi_object s b).isSome) : mergeEvents s l l = [] :=
  mergeLoop_refl s (l.length + l.length) l (by omega) hlive

/-- Members of either walk chain (after pruning) are members of the
x-axis list. -/
theorem mem_trigWalk_xs (s : Aoi) (id : Int) (p : Int → Bool) (pid : Int)
    (h : pid ∈ (trigParts s id).1.reverse.takeWhile p ++ (trigParts s id).2.takeWhile p) :
    pid ∈ s.xs := by
  rcases List.mem_append.mp h with h | h
  · exact (trigParts_sub s id pid).1
      (List.mem_reverse.mp ((List.takeWhile_prefix p).subset h))
  · exact (trigParts_sub s id pid).2 ((List.takeWhile_prefix p).subset h)

/-- A live id stores itself in its slot. -/
theorem slot_id_of_live {s : Aoi} {i : Int} (h : (_aoi_object s i).isSome) :
    (s.slot (AOI_HASH_ID i)).id = i := by
  rw [Option.isSome_iff_exists] at h
  obtain ⟨obj, hobj⟩ := h
  obtain ⟨-, hslot, hid, -⟩ := _aoi_object_some_iff.mp hobj
  rw [hslot, hid]

/-- Membership in the candidate collection over a live x-axis list:
exactly the non-pruned walked ids passing the radius tests. -/
theorem mem_trigCur_live (s : Aoi) (id : Int) (obj : AoiObject) (er lr : Int)
    (hxs : ∀ i ∈ s.xs, (_aoi_object s i).isSome) (b : Int) :
    b ∈ (trigCur s id obj er lr).entries ↔
      b ∈ (trigParts s id).1.reverse.takeWhile
            (fun pid => decide (¬ trigDx s obj pid > lr)) ++
          (trigParts s id).2.takeWhile (fun pid => decide (¬ trigDx s obj pid > lr)) ∧
        trigPick s obj er lr b := by
  rw [mem_trigCur]
  constructor
  · rintro ⟨pid, hp, hpick, hb⟩
    have hpid : (s.slot (AOI_HASH_ID pid)).id = pid :=
      slot_id_of_live (hxs pid (mem_trigWalk_xs s id _ pid hp))
    rw [hpid] at hb
    subst hb
    exact ⟨hp, hpick⟩
  · rintro ⟨hb, hpick⟩
    exact ⟨b, hb, hpick,
      (slot_id_of_live (hxs b (mem_trigWalk_xs s id _ b hb))).symm⟩

/-- Entries of the candidate collection are live members of the x-axis
list. -/
theorem trigCur_entries_live (s : Aoi) (id : Int) (obj : AoiObject) (er lr : Int)
    (hxs : ∀ i ∈ s.xs, (_aoi_object s i).isSome) (b : Int)
    (hb : b ∈ (trigCur s id obj er lr).entries) :
    b ∈ s.xs ∧ (_aoi_object s b).isSome := by
  have := ((mem_trigCur_live s id obj er lr hxs b).mp hb).1
  have hbx := mem_trigWalk_xs s id _ b this
  exact ⟨hbx, hxs b hbx⟩

/-- Updating a slot with an object of the same stored id and type does
not change which ids are live. -/
theorem isSome_lookup_update (s : Aoi) (H : Int) (objN : AoiObject)
    (hid : objN.id = (s.slot H).id) (hty : objN.type = (s.slot H).type) (i : Int) :
    (_aoi_object { s with slot := Function.update s.slot H objN } i).isSome =
      (_aoi_object s i).isSome := by
  unfold _aoi_object
  by_cases hneg : i < 0
  · rw [if_pos hneg, if_pos hneg]
  · rw [if_neg hneg, if_neg hneg]
    show (if (Function.update s.slot H objN (AOI_HASH_ID i)).id ≠ i ∨
            (Function.update s.slot H objN (AOI_HASH_ID i)).type = AOI_OBJECT_INVALID
          then (none : Option AoiObject)
          else some (Function.update s.slot H objN (AOI_HASH_ID i))).isSome =
        (if (s.slot (AOI_HASH_ID i)).id ≠ i ∨
            (s.slot (AOI_HASH_ID i)).type = AOI_OBJECT_INVALID
          then (none : Option AoiObject)
          else some (s.slot (AOI_HASH_ID i))).isSome
    by_cases hH : AOI_HASH_ID i = H
    · rw [hH, Function.update_same, hid, hty]
      split_ifs <;> rfl
    · rw [Function.update_noteq hH]

/-- Re-running the candidate collection right after a scan (positions and
list unchanged, previous snapshot replaced by the scan's result) yields
the same candidate list. -/
theorem trigCur_idem (s s1 : Aoi) (id er lr : Int) (obj obj1 : AoiObject)
    (h : _aoi_object s id = some obj)
    (hxs : ∀ i ∈ s.xs, (_aoi_object s i).isSome)
    (hobj1 : obj1 = { obj with n_list := obj.o_list, o_list := trigCur s id obj er lr })
    (hs1 : s1 = { s with slot := Function.update s.slot (AOI_HASH_ID id) obj1 }) :
    (trigCur s1 id obj1 er lr).entries = (trigCur s id obj er lr).entries := by
  obtain ⟨h0, hslot, hid, hty⟩ := _aoi_object_some_iff.mp h
  have hxs1 : s1.xs = s.xs := by rw [hs1]
  have hview : ∀ pid : Int,
      (s1.slot (AOI_HASH_ID pid)).p0 = (s.slot (AOI_HASH_ID pid)).p0 ∧
      (s1.slot (AOI_HASH_ID pid)).p1 = (s.slot (AOI_HASH_ID pid)).p1 ∧
      (s1.slot (AOI_HASH_ID pid)).id = (s.slot (AOI_HASH_ID pid)).id := by
    intro pid
    rw [hs1]
    show (Function.update s.slot (AOI_HASH_ID id) obj1 (AOI_HASH_ID pid)).p0 = _ ∧
      (Function.update s.slot (AOI_HASH_ID id) obj1 (AOI_HASH_ID pid)).p1 = _ ∧
      (Function.update s.slot (AOI_HASH_ID id) obj1 (AOI_HASH_ID pid)).id = _
    by_cases hH : AOI_HASH_ID pid = AOI_HASH_ID id
    · rw [hH, Function.update_same, hslot, hobj1]
      exact ⟨rfl, rfl, rfl⟩
    · rw [Function.update_noteq hH]
      exact ⟨rfl, rfl, rfl⟩
  have hp0 : obj1.p0 = obj.p0 := by rw [hobj1]
  have hp1 : obj1.p1 = obj.p1 := by rw [hobj1]
  have hdx : ∀ pid, trigDx s1 obj1 pid = trigDx s obj pid := by
    intro pid
    unfold trigDx
    rw [(hview pid).1, hp0]
  have hd2 : ∀ pid, trigD2 s1 obj1 pid = trigD2 s obj pid := by
    intro pid
    unfold trigD2 trigDx
    rw [(hview pid).1, (hview pid).2.1, hp0, hp1]
  have hparts : trigParts s1 id = trigParts s id := by
    unfold trigParts
    rw [hxs1]
  have hxs1live : ∀ i ∈ s1.xs, (_aoi_object s1 i).isSome := by
    intro i hi
    rw [hxs1] at hi
    rw [hs1, isSome_lookup_update s (AOI_HASH_ID id) obj1
      (by rw [hobj1, hslot]) (by rw [hobj1, hslot]) i]
    exact hxs i hi
  apply sorted_ext _ _ (sorted_trigCur s1 id obj1 er lr) (sorted_trigCur s id obj er lr)
  intro b
  rw [mem_trigCur_live s1 id obj1 er lr hxs1live b,
    mem_trigCur_live s id obj er lr hxs b, hparts]
  rw [takeWhile_congr ((trigParts s id).1.reverse) (fun a _ => by rw [hdx a]),
    takeWhile_congr ((trigParts s id).2) (fun a _ => by rw [hdx a])]
  apply and_congr_right
  intro hbTW
  have hbid : (s.slot (AOI_HASH_ID b)).id = b :=
    slot_id_of_live (hxs b (mem_trigWalk_xs s id _ b hbTW))
  have hbid1 : (s1.slot (AOI_HASH_ID b)).id = b := by
    rw [(hview b).2.2, hbid]
  unfold trigPick
  rw [hd2 b, hbid1, hbid]
  have hol : obj1.o_list = trigCur s id obj er lr := by rw [hobj1]
  rw [hol, find_list_iff _ (sorted_trigCur s id obj er lr) b,
    mem_trigCur_live s id obj er lr hxs b]
  unfold trigPick
  rw [hbid]
  constructor
  · rintro (hE | ⟨hnE, hL, -, (hE | ⟨-, -, hf⟩)⟩)
    · exact Or.inl hE
    · exact absurd hE hnE
    · exact Or.inr ⟨hnE, hL, hf⟩
  · rintro (hE | ⟨hnE, hL, hf⟩)
    · exact Or.inl hE
    · exact Or.inr ⟨hnE, hL, hbTW, Or.inr ⟨hnE, hL, hf⟩⟩

/-- Core of the idempotent-scan property, under the list-liveness
invariant of reachable states. -/
theorem c3_core (s : Aoi) (id er lr : Int)
    (hxs : ∀ i ∈ s.xs, (_aoi_object s i).isSome) :
    (aoi_trigger (aoi_trigger s id er lr).1 id er lr).2 = [] := by
  cases hobj : _aoi_object s id with
  | none =>
      rw [aoi_trigger_eq_of_none hobj, pair_fst, aoi_trigger_eq_of_none hobj, pair_snd]
  | some obj =>
      obtain ⟨h0, hslot, hid, hty⟩ := _aoi_object_some_iff.mp hobj
      rw [aoi_trigger_eq_of_some hobj, pair_fst]
      have hlook1 : _aoi_object { s with slot := Function.update s.slot (AOI_HASH_ID id) { obj with n_list := obj.o_list, o_list := trigCur s id obj er lr } } id = some ({ obj with n_list := obj.o_list, o_list := trigCur s id obj er lr }) :=
        _aoi_object_update_self ({ obj with n_list := obj.o_list, o_list := trigCur s id obj er lr }) h0 hid hty s.xs s.ys s.id
      rw [aoi_trigger_eq_of_some hlook1, pair_snd]
      have holred : ({ obj with n_list := obj.o_list, o_list := trigCur s id obj er lr } : AoiObject).o_list = trigCur s id obj er lr := rfl
      have hcur := trigCur_idem s _ id er lr obj _ hobj hxs rfl rfl
      rw [holred, hcur]
      by_cases hemp : (trigCur s id obj er lr).entries.length = 0
      · rw [if_pos hemp, List.length_eq_zero.mp hemp]
        rfl
      · rw [if_neg hemp]
        apply mergeEvents_refl
        intro b hb
        rw [isSome_lookup_update s (AOI_HASH_ID id) _ (by rw [hslot]) (by rw [hslot]) b]
        exact (trigCur_entries_live s id obj er lr hxs b hb).2

/-! ## The reachable-state invariant

Every mutating API call keeps the allocation counter nonnegative and the
x-axis list a duplicate-free list of live ids.  This is the hypothesis
`c3_core` needs, discharged below for every reachable state. -/

/-- General allocator characterisation: a probe pass either fails,
leaving the slot table and both axis lists untouched, or reserves a slot
that was free in the starting state. -/
theorem nextIdLoop_inv (fuel : Nat) (s : Aoi) (h0 : 0 ≤ s.id) :
    (∃ ctr : Int, 0 ≤ ctr ∧ s.id ≤ ctr ∧
      nextIdLoop fuel s = (-1, { id := ctr, slot := s.slot, xs := s.xs, ys := s.ys })) ∨
    (∃ id ctr : Int, 0 ≤ id ∧ 0 ≤ ctr ∧ s.id ≤ id ∧ id < ctr ∧
      (s.slot (AOI_HASH_ID id)).type = AOI_OBJECT_INVALID ∧
      nextIdLoop fuel s = (id, { id := ctr, slot := Function.update s.slot (AOI_HASH_ID id) { AoiObject.zero with type := AOI_OBJECT_RESERVE, id := id }, xs := s.xs, ys := s.ys })) := by
  induction fuel generalizing s with
  | zero => exact Or.inl ⟨s.id, h0, le_refl _, rfl⟩
  | succ fuel ih =>
      rw [nextIdLoop_succ]
      rw [if_neg (show ¬ s.id < 0 by omega)]
      by_cases hc : (s.slot (AOI_HASH_ID s.id)).type = AOI_OBJECT_INVALID
      · rw [if_pos hc]
        exact Or.inr ⟨s.id, s.id + 1, h0, by omega, le_refl _, by omega, hc, rfl⟩
      · rw [if_neg hc]
        rcases ih { id := s.id + 1, slot := s.slot, xs := s.xs, ys := s.ys }
            (by show (0:Int) ≤ s.id + 1; omega) with
          ⟨ctr, hctr, hge, heq⟩ | ⟨id, ctr, hid0, hctr, hge, hlt, hfree, heq⟩
        · have hge' : s.id + 1 ≤ ctr := hge
          exact Or.inl ⟨ctr, hctr, by omega, heq⟩
        · have hge' : s.id + 1 ≤ id := hge
          exact Or.inr ⟨id, ctr, hid0, hctr, by omega, hlt, hfree, heq⟩

/-- A failed allocation pass makes `aoi_enter` return `-1` with the final
allocator state, whatever the user payload. -/
theorem aoi_enter_eq_fail {s t : Aoi} (hfail : _aoi_next_id s = (-1, t)) (ud : Int) :
    aoi_enter s ud = (-1, t) := by
  unfold aoi_enter
  rw [hfail]
  rfl

/-- A successful allocation pass makes `aoi_enter` return the fresh id,
link it at the head of both axis lists, and install the object with empty
neighbour lists and the user payload. -/
theorem aoi_enter_eq_success {s : Aoi} {id ctr : Int} (hid0 : 0 ≤ id)
    (heq : _aoi_next_id s = (id, { id := ctr, slot := Function.update s.slot (AOI_HASH_ID id) { AoiObject.zero with type := AOI_OBJECT_RESERVE, id := id }, xs := s.xs, ys := s.ys })) (ud : Int) :
    aoi_enter s ud =
      (id, { id := ctr, slot := Function.update s.slot (AOI_HASH_ID id) { AoiObject.zero with type := AOI_OBJECT_RESERVE, id := id, n_list := ⟨AOI_DEF_AOI, []⟩, o_list := ⟨AOI_DEF_AOI, []⟩, ud := ud }, xs := id :: s.xs, ys := id :: s.ys }) := by
  unfold aoi_enter
  rw [heq]
  simp only
  rw [if_neg (show ¬ id = -1 by omega)]
  rw [_aoi_object_update_self ({ AoiObject.zero with type := AOI_OBJECT_RESERVE, id := id }) hid0 rfl (by decide : AOI_OBJECT_RESERVE ≠ AOI_OBJECT_INVALID) s.xs s.ys ctr]
  simp only
  rw [Function.update_idem]

/-- Two live ids with the same hash are equal (both store their own id in
the shared slot). -/
theorem live_hash_ne {s : Aoi} {i id : Int} (hi : (_aoi_object s i).isSome)
    (hid : (_aoi_object s id).isSome) (hne : i ≠ id) :
    AOI_HASH_ID i ≠ AOI_HASH_ID id := by
  intro hh
  apply hne
  obtain ⟨o, ho⟩ := Option.isSome_iff_exists.mp hi
  obtain ⟨o2, ho2⟩ := Option.isSome_iff_exists.mp hid
  obtain ⟨-, hsl, hio, -⟩ := _aoi_object_some_iff.mp ho
  obtain ⟨-, hsl2, hio2, -⟩ := _aoi_object_some_iff.mp ho2
  rw [← hio, ← hsl, hh, hsl2, hio2]

/-- A live id never hashes onto a free slot. -/
theorem live_hash_ne_free {s : Aoi} {i id : Int} (hi : (_aoi_object s i).isSome)
    (hfree : (s.slot (AOI_HASH_ID id)).type = AOI_OBJECT_INVALID) :
    AOI_HASH_ID i ≠ AOI_HASH_ID id := by
  intro hh
  obtain ⟨o, ho⟩ := Option.isSome_iff_exists.mp hi
  obtain ⟨-, hsl, -, htyo⟩ := _aoi_object_some_iff.mp ho
  rw [hh] at hsl
  rw [hsl] at hfree
  exact htyo hfree

/-- Updating a slot another live id does not hash to keeps that id live,
whatever the counter and axis lists become. -/
theorem isSome_of_update_other {s : Aoi} {i : Int} (H : Int) (objN : AoiObject)
    (hne : AOI_HASH_ID i ≠ H) (hi : (_aoi_object s i).isSome)
    (ctr : Int) (xs ys : List Int) :
    (_aoi_object { id := ctr, slot := Function.update s.slot H objN, xs := xs, ys := ys } i).isSome := by
  obtain ⟨o, ho⟩ := Option.isSome_iff_exists.mp hi
  obtain ⟨hi0, hsl, hio, htyo⟩ := _aoi_object_some_iff.mp ho
  have h : _aoi_object { id := ctr, slot := Function.update s.slot H objN, xs := xs, ys := ys } i = some o := by
    rw [_aoi_object_some_iff]
    refine ⟨hi0, ?_, hio, htyo⟩
    show Function.update s.slot H objN (AOI_HASH_ID i) = o
    rw [Function.update_noteq hne]
    exact hsl
  rw [h]
  rfl

/-- A slot update that keeps the stored id and type preserves the state
invariant. -/
theorem AoiInv_update_keep (s : Aoi) (H : Int) (objN : AoiObject)
    (hid : objN.id = (s.slot H).id) (hty : objN.type = (s.slot H).type)
    (h : AoiInv s) : AoiInv { s with slot := Function.update s.slot H objN } := by
  obtain ⟨hcnt, hnd, hlive⟩ := h
  refine ⟨hcnt, hnd, ?_⟩
  intro i hi
  rw [isSome_lookup_update s H objN hid hty i]
  exact hlive i hi

/-- The forward re-link step permutes `x :: post`. -/
theorem moveFwd_perm (coord : Int → Int) (c x : Int) (l : List Int) :
    (moveFwd coord c x l).Perm (x :: l) := by
  induction l with
  | nil => exact List.Perm.refl _
  | cons h t ih =>
      unfold moveFwd
      by_cases hc : coord h > c
      · rw [if_pos hc]
      · rw [if_neg hc]
        exact (ih.cons h).trans (List.Perm.swap x h t)

/-- The backward re-link step permutes `x :: pre.reverse`. -/
theorem moveBwdRev_perm (coord : Int → Int) (c x : Int) (l : List Int) :
    (moveBwdRev coord c x l).Perm (x :: l) := by
  induction l with
  | nil => exact List.Perm.refl _
  | cons h t ih =>
      unfold moveBwdRev
      by_cases hc : coord h < c
      · rw [if_pos hc]
      · rw [if_neg hc]
        exact (ih.cons h).trans (List.Perm.swap x h t)

/-- Axis re-linking permutes the axis list. -/
theorem relinkAxis_perm (coord : Int → Int) (x c d : Int) (l : List Int) :
    (relinkAxis coord x c d l).Perm l := by
  unfold relinkAxis
  by_cases hd : d > 0
  · rw [if_pos hd]
    cases hsp : splitFirst l x with
    | none => exact List.Perm.refl _
    | some pr =>
        obtain ⟨pre, post⟩ := pr
        have hl := splitFirst_eq x l pre post hsp
        rw [hl]
        exact (moveFwd_perm coord c x post).append_left pre
  · rw [if_neg hd]
    by_cases hd2 : d < 0
    · rw [if_pos hd2]
      cases hsp : splitFirst l x with
      | none => exact List.Perm.refl _
      | some pr =>
          obtain ⟨pre, post⟩ := pr
          have hl := splitFirst_eq x l pre post hsp
          rw [hl]
          have h1 : ((moveBwdRev coord c x pre.reverse).reverse).Perm (x :: pre) :=
            ((moveBwdRev coord c x pre.reverse).reverse_perm).trans
              ((moveBwdRev_perm coord c x pre.reverse).trans ((pre.reverse_perm).cons x))
          exact (h1.append_right post).trans List.perm_middle.symm
    · rw [if_neg hd2]

/-- The incremental re-sort preserves the state invariant: it permutes
the axis lists and leaves the slot table untouched. -/
theorem AoiInv_update_list (s : Aoi) (a b c : Int) (h : AoiInv s) :
    AoiInv (_aoi_update_list s a b c) := by
  obtain ⟨hcnt, hnd, hlive⟩ := h
  have hperm : ((_aoi_update_list s a b c).xs).Perm s.xs :=
    relinkAxis_perm _ a _ b s.xs
  refine ⟨hcnt, hperm.nodup_iff.mpr hnd, ?_⟩
  intro i hi
  rw [_aoi_object_of_update_list]
  exact hlive i (hperm.mem_iff.mp hi)

/-- `aoi_enter` preserves the state invariant. -/
theorem AoiInv_enter (s : Aoi) (ud : Int) (h : AoiInv s) : AoiInv (aoi_enter s ud).2 := by
  obtain ⟨hcnt, hnd, hlive⟩ := h
  rcases nextIdLoop_inv 65536 s hcnt with ⟨ctr, hctr, -, heq⟩ | ⟨id, ctr, hid0, hctr, -, -, hfree, heq⟩
  · rw [aoi_enter_eq_fail heq ud, pair_snd]
    exact ⟨hctr, hnd, fun i hi => hlive i hi⟩
  · rw [aoi_enter_eq_success hid0 heq ud, pair_snd]
    have hnotin : id ∉ s.xs := by
      intro hmem
      obtain ⟨o, ho⟩ := Option.isSome_iff_exists.mp (hlive id hmem)
      obtain ⟨-, hsl, -, hty⟩ := _aoi_object_some_iff.mp ho
      rw [hsl] at hfree
      exact hty hfree
    refine ⟨hctr, List.nodup_cons.mpr ⟨hnotin, hnd⟩, ?_⟩
    intro i hi
    rcases List.mem_cons.mp hi with rfl | hi'
    · have h := @_aoi_object_update_self s i ({ AoiObject.zero with type := AOI_OBJECT_RESERVE, id := i, n_list := ⟨AOI_DEF_AOI, []⟩, o_list := ⟨AOI_DEF_AOI, []⟩, ud := ud }) hid0 rfl (by show AOI_OBJECT_RESERVE ≠ AOI_OBJECT_INVALID; decide) (i :: s.xs) (i :: s.ys) ctr
      rw [h]
      rfl
    · exact isSome_of_update_other (AOI_HASH_ID id) _ (live_hash_ne_free (hlive i hi') hfree) (hlive i hi') ctr (id :: s.xs) (id :: s.ys)

/-- `aoi_leave` preserves the state invariant. -/
theorem AoiInv_leave (s : Aoi) (id : Int) (h : AoiInv s) : AoiInv (aoi_leave s id) := by
  obtain ⟨hcnt, hnd, hlive⟩ := h
  cases hobj : _aoi_object s id with
  | none =>
      unfold aoi_leave
      rw [hobj]
      exact ⟨hcnt, hnd, hlive⟩
  | some obj =>
      rw [aoi_leave_eq_of_some hobj]
      refine ⟨hcnt, hnd.erase id, ?_⟩
      intro i hi
      obtain ⟨hne, hmem⟩ := hnd.mem_erase_iff.mp hi
      have hidlive : (_aoi_object s id).isSome := by rw [hobj]; rfl
      exact isSome_of_update_other (AOI_HASH_ID id) AoiObject.zero
        (live_hash_ne (hlive i hmem) hidlive hne) (hlive i hmem) s.id (s.xs.erase id) (s.ys.erase id)

/-- Equation lemma: `aoi_locate` on a live id. -/
theorem aoi_locate_eq_of_some {s : Aoi} {id : Int} {obj : AoiObject}
    (h : _aoi_object s id = some obj) (x y : Int) :
    aoi_locate s id x y =
      _aoi_update_list { s with slot := Function.update s.slot (AOI_HASH_ID id) ({ obj with p0 := x, p1 := y }) } id (x - obj.p0) (y - obj.p1) := by
  unfold aoi_locate
  rw [h]

/-- `aoi_locate` preserves the state invariant. -/
theorem AoiInv_locate (s : Aoi) (id x y : Int) (h : AoiInv s) : AoiInv (aoi_locate s id x y) := by
  cases hobj : _aoi_object s id with
  | none =>
      unfold aoi_locate
      rw [hobj]
      exact h
  | some obj =>
      obtain ⟨h0, hslot, hid, hty⟩ := _aoi_object_some_iff.mp hobj
      rw [aoi_locate_eq_of_some hobj x y]
      exact AoiInv_update_list _ _ _ _
        (AoiInv_update_keep s (AOI_HASH_ID id) _ (by rw [hslot]) (by rw [hslot]) h)

/-- `aoi_move` either leaves the state unchanged or performs a slot
update that keeps the stored id and type. -/
theorem aoi_move_keep {s : Aoi} {id : Int} {obj : AoiObject}
    (h : _aoi_object s id = some obj) (x y : Int) :
    aoi_move s id x y = s ∨
    ∃ objN : AoiObject, objN.id = obj.id ∧ objN.type = obj.type ∧ objN.o_list = obj.o_list ∧
      aoi_move s id x y = { s with slot := Function.update s.slot (AOI_HASH_ID id) objN } := by
  unfold aoi_move
  rw [h]
  by_cases hc : obj.speed ≤ 0 ∨ (x = obj.p0 ∧ y = obj.p1)
  · exact Or.inl (if_pos hc)
  · refine Or.inr ⟨{ obj with sp0 := obj.p0, sp1 := obj.p1, dp0 := x, dp1 := y, d0 := ((x - obj.p0 : Int) : ℚ) / fsqrt ((x - obj.p0) * (x - obj.p0) + (y - obj.p1) * (y - obj.p1)), d1 := ((y - obj.p1 : Int) : ℚ) / fsqrt ((x - obj.p0) * (x - obj.p0) + (y - obj.p1) * (y - obj.p1)), e := ratPi * (obj.speed : ℚ) / fsqrt ((x - obj.p0) * (x - obj.p0) + (y - obj.p1) * (y - obj.p1)), n_tick := (fsqrtInt ((x - obj.p0) * (x - obj.p0) + (y - obj.p1) * (y - obj.p1))).tdiv obj.speed, p_tick := 0 }, rfl, rfl, rfl, ?_⟩
    exact if_neg hc

/-- `aoi_move` preserves the state invariant. -/
theorem AoiInv_move (s : Aoi) (id x y : Int) (h : AoiInv s) : AoiInv (aoi_move s id x y) := by
  cases hobj : _aoi_object s id with
  | none =>
      unfold aoi_move
      rw [hobj]
      exact h
  | some obj =>
      obtain ⟨h0, hslot, hid, hty⟩ := _aoi_object_some_iff.mp hobj
      rcases aoi_move_keep hobj x y with heq | ⟨objN, hNid, hNty, -, heq⟩
      · rw [heq]; exact h
      · rw [heq]
        exact AoiInv_update_keep s (AOI_HASH_ID id) objN
          (by rw [hslot]; exact hNid) (by rw [hslot]; exact hNty) h

/-- Equation lemma: `aoi_speed` on a live id. -/
theorem aoi_speed_eq_of_some {s : Aoi} {id : Int} {obj : AoiObject}
    (h : _aoi_object s id = some obj) (sp : Int) :
    aoi_speed s id sp =
      (if obj.n_tick > 0 then
        aoi_move { s with slot := Function.update s.slot (AOI_HASH_ID id) ({ obj with speed := sp }) } obj.id obj.dp0 obj.dp1
      else { s with slot := Function.update s.slot (AOI_HASH_ID id) ({ obj with speed := sp }) }) := by
  unfold aoi_speed
  rw [h]

/-- `aoi_speed` preserves the state invariant. -/
theorem AoiInv_speed (s : Aoi) (id sp : Int) (h : AoiInv s) : AoiInv (aoi_speed s id sp) := by
  cases hobj : _aoi_object s id with
  | none =>
      unfold aoi_speed
      rw [hobj]
      exact h
  | some obj =>
      obtain ⟨h0, hslot, hid, hty⟩ := _aoi_object_some_iff.mp hobj
      rw [aoi_speed_eq_of_some hobj sp]
      have h1 : AoiInv { s with slot := Function.update s.slot (AOI_HASH_ID id) ({ obj with speed := sp }) } :=
        AoiInv_update_keep s (AOI_HASH_ID id) _ (by rw [hslot]) (by rw [hslot]) h
      by_cases hn : obj.n_tick > 0
      · rw [if_pos hn]
        exact AoiInv_move _ _ _ _ h1
      · rw [if_neg hn]
        exact h1

/-- The tick step preserves the state invariant: it updates the mover's
slot in place (same id and type) and then re-sorts. -/
theorem AoiInv_object_update (s : Aoi) (objId tick : Int) (h : AoiInv s) :
    AoiInv (_aoi_object_update s objId tick) := by
  unfold _aoi_object_update
  apply AoiInv_update_list
  apply AoiInv_update_keep
  · split <;> rfl
  · split <;> rfl
  · exact h

/-- `aoi_update` preserves the state invariant. -/
theorem AoiInv_advance (s : Aoi) (id tick : Int) (h : AoiInv s) : AoiInv (aoi_update s id tick) := by
  cases hobj : _aoi_object s id with
  | none =>
      unfold aoi_update
      rw [hobj]
      exact h
  | some obj =>
      rw [aoi_update_eq_of_some hobj tick]
      by_cases h1 : obj.type = AOI_OBJECT_INVALID ∨ obj.speed ≤ 0
      · rw [if_pos h1]; exact h
      · rw [if_neg h1]
        by_cases h2 : obj.n_tick ≤ 0
        · rw [if_pos h2]; exact h
        · rw [if_neg h2]
          exact AoiInv_object_update s id tick h

/-- `aoi_trigger` preserves the state invariant. -/
theorem AoiInv_trigger (s : Aoi) (id er lr : Int) (h : AoiInv s) :
    AoiInv (aoi_trigger s id er lr).1 := by
  cases hobj : _aoi_object s id with
  | none =>
      rw [aoi_trigger_eq_of_none hobj, pair_fst]
      exact h
  | some obj =>
      obtain ⟨h0, hslot, hid, hty⟩ := _aoi_object_some_iff.mp hobj
      rw [aoi_trigger_eq_of_some hobj, pair_fst]
      exact AoiInv_update_keep s (AOI_HASH_ID id) _ (by rw [hslot]) (by rw [hslot]) h

/-- Every reachable state satisfies the invariant. -/
theorem reachable_inv {s : Aoi} (h : Reachable s) : AoiInv s := by
  induction h with
  | init => exact ⟨le_refl 0, List.nodup_nil, fun i hi => absurd hi (List.not_mem_nil i)⟩
  | enter ud _ ih => exact AoiInv_enter _ ud ih
  | leave id _ ih => exact AoiInv_leave _ id ih
  | locate id x y _ ih => exact AoiInv_locate _ id x y ih
  | move id x y _ ih => exact AoiInv_move _ id x y ih
  | speed id sp _ ih => exact AoiInv_speed _ id sp ih
  | update id tick _ ih => exact AoiInv_advance _ id tick ih
  | trigger id er lr _ ih => exact AoiInv_trigger _ id er lr ih

/-- C3: on every reachable engine state, two consecutive `scan`
(`aoi_trigger`) calls on the same entity with identical radii and no
intervening movement, creation, or destruction produce zero events on the
second call. -/
theorem c3_idempotent_scan (s : Aoi) (id er lr : Int) (h : Reachable s) :
    (aoi_trigger (aoi_trigger s id er lr).1 id er lr).2 = [] :=
  c3_core s id er lr (reachable_inv h).2.2

theorem c3_idempotent_scan_witness :
    (aoi_trigger (aoi_trigger (aoi_locate (aoi_enter (aoi_enter aoiInit 0).2 0).2 1 90 0) 0 100 130).1 0 100 130).2 = [] :=
  c3_idempotent_scan _ 0 100 130
    (Reachable.locate 1 90 0 (Reachable.enter 0 (Reachable.enter 0 Reachable.init)))

/-! ## C4 (amended half): teleport preserves the sort invariant

`aoi_enter` links a fresh entity at the head of both axis sequences
without sorting, so the unconditional invariant of the claim fails (the
counterexample above).  What the re-sort walk does guarantee: a teleport
on a state whose axis sequences are duplicate-free, live and sorted
leaves both sequences sorted. -/

/-- `sortedBy` is the boolean form of `List.Chain'` over the coordinate
order. -/
theorem sortedBy_iff_chain (coord : Int → Int) : ∀ l : List Int,
    sortedBy coord l = true ↔ List.Chain' (fun a b => coord a ≤ coord b) l
  | [] => by simp [sortedBy]
  | [a] => by simp [sortedBy]
  | a :: b :: t => by
      show (decide (coord a ≤ coord b) && sortedBy coord (b :: t)) = true ↔ _
      rw [Bool.and_eq_true, decide_eq_true_eq, List.chain'_cons]
      exact and_congr Iff.rfl (sortedBy_iff_chain coord (b :: t))

/-- Chain-sortedness only looks at the coordinates of the members. -/
theorem chain'_coord_congr (g g' : Int → Int) : ∀ l : List Int,
    (∀ i ∈ l, g' i = g i) →
    (List.Chain' (fun a b => g a ≤ g b) l ↔ List.Chain' (fun a b => g' a ≤ g' b) l)
  | [] => fun _ => by simp
  | a :: t => fun h => by
      rw [List.chain'_cons', List.chain'_cons']
      have ih := chain'_coord_congr g g' t (fun i hi => h i (List.mem_cons_of_mem a hi))
      refine and_congr ?_ ih
      constructor
      · intro h1 y hy
        rw [h a (List.mem_cons_self a t), h y (List.mem_cons_of_mem a (List.mem_of_mem_head? hy))]
        exact h1 y hy
      · intro h1 y hy
        rw [← h a (List.mem_cons_self a t), ← h y (List.mem_cons_of_mem a (List.mem_of_mem_head? hy))]
        exact h1 y hy

/-- A failed split means the object is not on the list. -/
theorem splitFirst_none (x : Int) : ∀ l : List Int, splitFirst l x = none → x ∉ l
  | [], _ => List.not_mem_nil x
  | h :: t, hn => by
      unfold splitFirst at hn
      by_cases hh : h = x
      · rw [if_pos hh] at hn
        cases hn
      · rw [if_neg hh] at hn
        intro hmem
        rcases List.mem_cons.mp hmem with rfl | hmem'
        · exact hh rfl
        · cases hsp : splitFirst t x with
          | none => exact splitFirst_none x t hsp hmem'
          | some pr =>
              rw [hsp] at hn
              obtain ⟨pre, post⟩ := pr
              cases hn

/-- The head of a forward re-link result is the re-linked object or the
old head. -/
theorem moveFwd_head (g : Int → Int) (c x : Int) : ∀ t : List Int,
    (moveFwd g c x t).head? = some x ∨ (moveFwd g c x t).head? = t.head?
  | [] => Or.inl rfl
  | h :: t => by
      unfold moveFwd
      by_cases hc : g h > c
      · rw [if_pos hc]
        exact Or.inl rfl
      · rw [if_neg hc]
        exact Or.inr rfl

/-- Inserting into a sorted successor chain by the forward walk keeps it
sorted. -/
theorem moveFwd_sorted (g : Int → Int) (c x : Int) (hgx : g x = c) :
    ∀ t : List Int, List.Chain' (fun a b => g a ≤ g b) t →
      List.Chain' (fun a b => g a ≤ g b) (moveFwd g c x t)
  | [], _ => by simp [moveFwd]
  | h :: t, hch => by
      unfold moveFwd
      by_cases hc : g h > c
      · rw [if_pos hc, List.chain'_cons]
        exact ⟨by rw [hgx]; omega, hch⟩
      · rw [if_neg hc]
        rw [List.chain'_cons'] at hch
        rw [List.chain'_cons']
        refine ⟨?_, moveFwd_sorted g c x hgx t hch.2⟩
        intro y hy
        rcases moveFwd_head g c x t with hh | hh
        · rw [hh] at hy
          obtain rfl : x = y := Option.some.inj (Option.mem_def.mp hy)
          rw [hgx]
          omega
        · rw [hh] at hy
          exact hch.1 y hy

/-- The head of a backward re-link result is the re-linked object or the
old head. -/
theorem moveBwdRev_head (g : Int → Int) (c x : Int) : ∀ t : List Int,
    (moveBwdRev g c x t).head? = some x ∨ (moveBwdRev g c x t).head? = t.head?
  | [] => Or.inl rfl
  | h :: t => by
      unfold moveBwdRev
      by_cases hc : g h < c
      · rw [if_pos hc]
        exact Or.inl rfl
      · rw [if_neg hc]
        exact Or.inr rfl

/-- Inserting into a non-increasing (reversed) predecessor chain by the
backward walk keeps it non-increasing. -/
theorem moveBwdRev_sorted (g : Int → Int) (c x : Int) (hgx : g x = c) :
    ∀ t : List Int, List.Chain' (fun a b => g b ≤ g a) t →
      List.Chain' (fun a b => g b ≤ g a) (moveBwdRev g c x t)
  | [], _ => by simp [moveBwdRev]
  | h :: t, hch => by
      unfold moveBwdRev
      by_cases hc : g h < c
      · rw [if_pos hc, List.chain'_cons]
        exact ⟨by rw [hgx]; omega, hch⟩
      · rw [if_neg hc]
        rw [List.chain'_cons'] at hch
        rw [List.chain'_cons']
        refine ⟨?_, moveBwdRev_sorted g c x hgx t hch.2⟩
        intro y hy
        rcases moveBwdRev_head g c x t with hh | hh
        · rw [hh] at hy
          obtain rfl : x = y := Option.some.inj (Option.mem_def.mp hy)
          rw [hgx]
          omega
        · rw [hh] at hy
          exact hch.1 y hy

/-- Core of the amended C4: one axis re-link of an object whose
coordinate changed from `g x` to `c = g x + d` keeps the axis sorted,
where `g'` is the post-update coordinate view (agreeing with `g` on every
other member). -/
theorem relink_sorted (g g' : Int → Int) (x c d : Int) (l : List Int)
    (hagree : ∀ i ∈ l, i ≠ x → g' i = g i)
    (hgx : g' x = c) (hd : c = g x + d) (hnd : l.Nodup)
    (hsorted : sortedBy g l = true) :
    sortedBy g' (relinkAxis g' x c d l) = true := by
  rw [sortedBy_iff_chain] at hsorted ⊢
  unfold relinkAxis
  by_cases hdp : d > 0
  · rw [if_pos hdp]
    cases hsp : splitFirst l x with
    | none =>
        have hx : x ∉ l := splitFirst_none x l hsp
        exact (chain'_coord_congr g g' l (fun i hi => hagree i hi (fun he => hx (he ▸ hi)))).mp hsorted
    | some pr =>
        obtain ⟨pre, post⟩ := pr
        have hl := splitFirst_eq x l pre post hsp
        subst hl
        rw [List.nodup_append] at hnd
        have hxpre : x ∉ pre := fun hxm => hnd.2.2 hxm (List.mem_cons_self x post)
        have hxpost : x ∉ post := (List.nodup_cons.mp hnd.2.1).1
        rw [List.chain'_append] at hsorted
        obtain ⟨hpre, hxp, hbound⟩ := hsorted
        rw [List.chain'_cons'] at hxp
        obtain ⟨hxhead, hpost⟩ := hxp
        have hagreePre : ∀ i ∈ pre, g' i = g i := fun i hi =>
          hagree i (List.mem_append_left _ hi) (fun he => hxpre (he ▸ hi))
        have hagreePost : ∀ i ∈ post, g' i = g i := fun i hi =>
          hagree i (List.mem_append_right _ (List.mem_cons_of_mem x hi)) (fun he => hxpost (he ▸ hi))
        rw [List.chain'_append]
        refine ⟨(chain'_coord_congr g g' pre hagreePre).mp hpre,
                moveFwd_sorted g' c x hgx post ((chain'_coord_congr g g' post hagreePost).mp hpost), ?_⟩
        intro a ha b hb
        have haP : a ∈ pre := List.mem_of_mem_getLast? ha
        have hga : g' a = g a := hagreePre a haP
        have hax : g a ≤ g x := hbound a ha x (Option.mem_def.mpr rfl)
        rcases moveFwd_head g' c x post with hh | hh
        · rw [hh] at hb
          obtain rfl : x = b := Option.some.inj (Option.mem_def.mp hb)
          rw [hga, hgx]
          omega
        · rw [hh] at hb
          have hbP : b ∈ post := List.mem_of_mem_head? hb
          have hgb : g' b = g b := hagreePost b hbP
          have hxb : g x ≤ g b := hxhead b hb
          rw [hga, hgb]
          omega
  · rw [if_neg hdp]
    by_cases hdn : d < 0
    · rw [if_pos hdn]
      cases hsp : splitFirst l x with
      | none =>
          have hx : x ∉ l := splitFirst_none x l hsp
          exact (chain'_coord_congr g g' l (fun i hi => hagree i hi (fun he => hx (he ▸ hi)))).mp hsorted
      | some pr =>
          obtain ⟨pre, post⟩ := pr
          have hl := splitFirst_eq x l pre post hsp
          subst hl
          rw [List.nodup_append] at hnd
          have hxpre : x ∉ pre := fun hxm => hnd.2.2 hxm (List.mem_cons_self x post)
          have hxpost : x ∉ post := (List.nodup_cons.mp hnd.2.1).1
          rw [List.chain'_append] at hsorted
          obtain ⟨hpre, hxp, hbound⟩ := hsorted
          rw [List.chain'_cons'] at hxp
          obtain ⟨hxhead, hpost⟩ := hxp
          have hagreePre : ∀ i ∈ pre, g' i = g i := fun i hi =>
            hagree i (List.mem_append_left _ hi) (fun he => hxpre (he ▸ hi))
          have hagreePost : ∀ i ∈ post, g' i = g i := fun i hi =>
            hagree i (List.mem_append_right _ (List.mem_cons_of_mem x hi)) (fun he => hxpost (he ▸ hi))
          rw [List.chain'_append]
          refine ⟨?_, (chain'_coord_congr g g' post hagreePost).mp hpost, ?_⟩
          · rw [List.chain'_reverse]
            have hprerev : List.Chain' (fun a b => g' b ≤ g' a) pre.reverse := by
              rw [List.chain'_reverse]
              exact (chain'_coord_congr g g' pre hagreePre).mp hpre
            exact moveBwdRev_sorted g' c x hgx pre.reverse hprerev
          · intro a ha b hb
            rw [List.getLast?_reverse] at ha
            have hbP : b ∈ post := List.mem_of_mem_head? hb
            have hgb : g' b = g b := hagreePost b hbP
            have hxb : g x ≤ g b := hxhead b hb
            rcases moveBwdRev_head g' c x pre.reverse with hh | hh
            · rw [hh] at ha
              obtain rfl : x = a := Option.some.inj (Option.mem_def.mp ha)
              rw [hgx, hgb]
              omega
            · rw [hh] at ha
              rw [List.head?_reverse] at ha
              have haP : a ∈ pre := List.mem_of_mem_getLast? ha
              have hga : g' a = g a := hagreePre a haP
              have hax : g a ≤ g x := hbound a ha x (Option.mem_def.mpr rfl)
              rw [hga, hgb]
              omega
    · rw [if_neg hdn]
      refine (chain'_coord_congr g g' l ?_).mp hsorted
      intro i hi
      by_cases hix : i = x
      · subst hix
        rw [hgx, hd]
        omega
      · exact hagree i hi hix

/-- C4 (amended): creation is excluded — `aoi_enter` links the new entity
at the head of both axis sequences without sorting, falsifying the
unconditional claim (see `c4_sort_invariant_counterexample`) — but every
teleport on a state whose axis sequences are duplicate-free lists of live
ids in non-decreasing coordinate order leaves both sequences in
non-decreasing order. -/
theorem c4_locate_preserves_sort (s : Aoi) (id x y : Int)
    (hxnd : s.xs.Nodup) (hynd : s.ys.Nodup)
    (hxlive : ∀ i ∈ s.xs, (_aoi_object s i).isSome)
    (hylive : ∀ i ∈ s.ys, (_aoi_object s i).isSome)
    (hxs : xsSorted s = true) (hys : ysSorted s = true) :
    xsSorted (aoi_locate s id x y) = true ∧ ysSorted (aoi_locate s id x y) = true := by
  cases hobj : _aoi_object s id with
  | none =>
      unfold aoi_locate
      rw [hobj]
      exact ⟨hxs, hys⟩
  | some obj =>
      obtain ⟨h0, hslot, hid, hty⟩ := _aoi_object_some_iff.mp hobj
      have hidlive : (_aoi_object s id).isSome := by rw [hobj]; rfl
      rw [aoi_locate_eq_of_some hobj x y]
      constructor
      · show sortedBy (fun i => (Function.update s.slot (AOI_HASH_ID id) ({ obj with p0 := x, p1 := y }) (AOI_HASH_ID i)).p0) (relinkAxis (fun i => (Function.update s.slot (AOI_HASH_ID id) ({ obj with p0 := x, p1 := y }) (AOI_HASH_ID i)).p0) id ((Function.update s.slot (AOI_HASH_ID id) ({ obj with p0 := x, p1 := y }) (AOI_HASH_ID id)).p0) (x - obj.p0) s.xs) = true
        refine relink_sorted (fun i => (s.slot (AOI_HASH_ID i)).p0) _ id _ (x - obj.p0) s.xs ?_ rfl ?_ hxnd hxs
        · intro i hi hne
          show (Function.update s.slot (AOI_HASH_ID id) ({ obj with p0 := x, p1 := y }) (AOI_HASH_ID i)).p0 = (s.slot (AOI_HASH_ID i)).p0
          rw [Function.update_noteq (live_hash_ne (hxlive i hi) hidlive hne)]
        · show (Function.update s.slot (AOI_HASH_ID id) ({ obj with p0 := x, p1 := y }) (AOI_HASH_ID id)).p0 = (s.slot (AOI_HASH_ID id)).p0 + (x - obj.p0)
          rw [Function.update_same, hslot]
          show x = obj.p0 + (x - obj.p0)
          omega
      · show sortedBy (fun i => (Function.update s.slot (AOI_HASH_ID id) ({ obj with p0 := x, p1 := y }) (AOI_HASH_ID i)).p1) (relinkAxis (fun i => (Function.update s.slot (AOI_HASH_ID id) ({ obj with p0 := x, p1 := y }) (AOI_HASH_ID i)).p1) id ((Function.update s.slot (AOI_HASH_ID id) ({ obj with p0 := x, p1 := y }) (AOI_HASH_ID id)).p1) (y - obj.p1) s.ys) = true
        refine relink_sorted (fun i => (s.slot (AOI_HASH_ID i)).p1) _ id _ (y - obj.p1) s.ys ?_ rfl ?_ hynd hys
        · intro i hi hne
          show (Function.update s.slot (AOI_HASH_ID id) ({ obj with p0 := x, p1 := y }) (AOI_HASH_ID i)).p1 = (s.slot (AOI_HASH_ID i)).p1
          rw [Function.update_noteq (live_hash_ne (hylive i hi) hidlive hne)]
        · show (Function.update s.slot (AOI_HASH_ID id) ({ obj with p0 := x, p1 := y }) (AOI_HASH_ID id)).p1 = (s.slot (AOI_HASH_ID id)).p1 + (y - obj.p1)
          rw [Function.update_same, hslot]
          show y = obj.p1 + (y - obj.p1)
          omega

theorem c4_locate_preserves_sort_witness :
    c1Setup.xs.Nodup ∧ xsSorted c1Setup = true ∧ ysSorted c1Setup = true ∧
    (xsSorted (aoi_locate c1Setup 1 90 0) = true ∧ ysSorted (aoi_locate c1Setup 1 90 0) = true) :=
  ⟨by decide, by decide, by decide,
   c4_locate_preserves_sort c1Setup 1 90 0 (by decide) (by decide) (by decide) (by decide) (by decide) (by decide)⟩

/-! ## C9: the event count of one scan is bounded by the pool capacity

The merge emits events with strictly increasing ids, an ENTER only for a
new-snapshot id and a LEAVE only for an old-snapshot id.  Over reachable
states the old snapshot is covered by a finite set `F` (the ids live when
it was taken, at most pool-capacity many, all below the counter value `b`
of that moment) and every live id is in `F` or at least `b`.  If the new
snapshot holds an id `≥ b` then the LEAVE flush is never reached with a
stale id (all old ids are below it), so every event id is live; otherwise
both snapshots sit inside `F`.  Either way the distinct event ids fit in
a set of at most `AOI_MAX_AOI` elements. -/

/-- A live id is nonnegative. -/
theorem live_nonneg {s : Aoi} {k : Int} (h : (_aoi_object s k).isSome) : 0 ≤ k := by
  obtain ⟨o, ho⟩ := Option.isSome_iff_exists.mp h
  exact (_aoi_object_some_iff.mp ho).1

/-- The fresh engine has no live ids. -/
theorem aoiInit_lookup (k : Int) : _aoi_object aoiInit k = none := by
  unfold _aoi_object
  by_cases hk : k < 0
  · rw [if_pos hk]
  · rw [if_neg hk]
    show (if (AoiObject.zero.id ≠ k ∨ AoiObject.zero.type = AOI_OBJECT_INVALID) then (none : Option AoiObject) else some AoiObject.zero) = none
    rw [if_pos (show AoiObject.zero.id ≠ k ∨ AoiObject.zero.type = AOI_OBJECT_INVALID from Or.inr rfl)]

/-- Every live id is in the live-id set. -/
theorem live_mem_liveIds {s : Aoi} {k : Int} (h : (_aoi_object s k).isSome) :
    k ∈ liveIds s := by
  rw [liveIds, Finset.mem_filter]
  refine ⟨?_, h⟩
  rw [Finset.mem_image]
  refine ⟨(AOI_HASH_ID k).toNat, ?_, ?_⟩
  · rw [Finset.mem_range]
    have h2 : AOI_HASH_ID k < 65536 := AOI_HASH_ID_lt k
    have h1 : 0 ≤ AOI_HASH_ID k := AOI_HASH_ID_nonneg k
    omega
  · show (s.slot (((AOI_HASH_ID k).toNat : Nat) : Int)).id = k
    have hc : (((AOI_HASH_ID k).toNat : Nat) : Int) = AOI_HASH_ID k :=
      Int.toNat_of_nonneg (AOI_HASH_ID_nonneg k)
    rw [hc]
    exact slot_id_of_live h

/-- Members of the live-id set are live. -/
theorem mem_liveIds_live {s : Aoi} {k : Int} (h : k ∈ liveIds s) :
    (_aoi_object s k).isSome := by
  rw [liveIds, Finset.mem_filter] at h
  exact h.2

/-- The live-id set has at most pool-capacity elements. -/
theorem liveIds_card (s : Aoi) : (liveIds s).card ≤ 65536 := by
  rw [liveIds]
  refine le_trans (Finset.card_filter_le _ _) (le_trans Finset.card_image_le ?_)
  have h := Finset.card_range 65536
  omega

/-- A duplicate-free list of members of a finite set is no longer than
the set's cardinality. -/
theorem length_le_card_of_mem (l : List Int) (hnd : l.Nodup) (T : Finset Int)
    (hmem : ∀ b ∈ l, b ∈ T) : l.length ≤ T.card := by
  rw [← List.toFinset_card_of_nodup hnd]
  apply Finset.card_le_card
  intro b hb
  exact hmem b (List.mem_toFinset.mp hb)

/-- Case analysis for a lookup after one slot update. -/
theorem lookup_update_cases {s : Aoi} {H k ctr : Int} {objN obj : AoiObject} {xs ys : List Int}
    (h : _aoi_object { id := ctr, slot := Function.update s.slot H objN, xs := xs, ys := ys } k = some obj) :
    (AOI_HASH_ID k = H ∧ obj = objN) ∨ (AOI_HASH_ID k ≠ H ∧ _aoi_object s k = some obj) := by
  obtain ⟨h0, hsl, hid, hty⟩ := _aoi_object_some_iff.mp h
  have hsl' : Function.update s.slot H objN (AOI_HASH_ID k) = obj := hsl
  by_cases hH : AOI_HASH_ID k = H
  · rw [hH, Function.update_same] at hsl'
    exact Or.inl ⟨hH, hsl'.symm⟩
  · rw [Function.update_noteq hH] at hsl'
    exact Or.inr ⟨hH, _aoi_object_some_iff.mpr ⟨h0, hsl', hid, hty⟩⟩

/-- One-step equations for the merge loop. -/
theorem mergeLoop_nil_left (s : Aoi) (fuel : Nat) (n : List Int) :
    mergeLoop s (fuel + 1) [] n = n.map (fun nid => { id := nid, e := AOI_ENTER }) := rfl

theorem mergeLoop_nil_right (s : Aoi) (fuel : Nat) (oh : Int) (ot : List Int) :
    mergeLoop s (fuel + 1) (oh :: ot) [] = (oh :: ot).map (fun oid => { id := oid, e := AOI_LEAVE }) := rfl

theorem mergeLoop_cons_cons (s : Aoi) (fuel : Nat) (oh nh : Int) (ot nt : List Int) :
    mergeLoop s (fuel + 1) (oh :: ot) (nh :: nt) =
      if (_aoi_object s oh).isNone then mergeLoop s fuel ot (nh :: nt)
      else if nh < oh then { id := nh, e := AOI_ENTER } :: mergeLoop s fuel (oh :: ot) nt
      else if nh = oh then mergeLoop s fuel ot nt
      else { id := oh, e := AOI_LEAVE } :: mergeLoop s fuel ot (nh :: nt) := rfl

/-- Every merge event is an ENTER for a new-snapshot id or a LEAVE for an
old-snapshot id. -/
theorem mergeLoop_id_mem (s : Aoi) : ∀ (fuel : Nat) (o n : List Int),
    ∀ e ∈ mergeLoop s fuel o n,
      (e.e = AOI_ENTER ∧ e.id ∈ n) ∨ (e.e = AOI_LEAVE ∧ e.id ∈ o)
  | 0, o, n => fun e he => absurd he (List.not_mem_nil e)
  | fuel + 1, [], n => fun e he => by
      rw [mergeLoop_nil_left] at he
      obtain ⟨nid, hnid, rfl⟩ := List.mem_map.mp he
      exact Or.inl ⟨rfl, hnid⟩
  | fuel + 1, oh :: ot, [] => fun e he => by
      rw [mergeLoop_nil_right] at he
      obtain ⟨oid, hoid, rfl⟩ := List.mem_map.mp he
      exact Or.inr ⟨rfl, hoid⟩
  | fuel + 1, oh :: ot, nh :: nt => fun e he => by
      rw [mergeLoop_cons_cons] at he
      by_cases h1 : (_aoi_object s oh).isNone
      · rw [if_pos h1] at he
        rcases mergeLoop_id_mem s fuel ot (nh :: nt) e he with ⟨ha, hb⟩ | ⟨ha, hb⟩
        · exact Or.inl ⟨ha, hb⟩
        · exact Or.inr ⟨ha, List.mem_cons_of_mem oh hb⟩
      · rw [if_neg h1] at he
        by_cases h2 : nh < oh
        · rw [if_pos h2] at he
          rcases List.mem_cons.mp he with rfl | he'
          · exact Or.inl ⟨rfl, List.mem_cons_self nh nt⟩
          · rcases mergeLoop_id_mem s fuel (oh :: ot) nt e he' with ⟨ha, hb⟩ | ⟨ha, hb⟩
            · exact Or.inl ⟨ha, List.mem_cons_of_mem nh hb⟩
            · exact Or.inr ⟨ha, hb⟩
        · rw [if_neg h2] at he
          by_cases h3 : nh = oh
          · rw [if_pos h3] at he
            rcases mergeLoop_id_mem s fuel ot nt e he with ⟨ha, hb⟩ | ⟨ha, hb⟩
            · exact Or.inl ⟨ha, List.mem_cons_of_mem nh hb⟩
            · exact Or.inr ⟨ha, List.mem_cons_of_mem oh hb⟩
          · rw [if_neg h3] at he
            rcases List.mem_cons.mp he with rfl | he'
            · exact Or.inr ⟨rfl, List.mem_cons_self oh ot⟩
            · rcases mergeLoop_id_mem s fuel ot (nh :: nt) e he' with ⟨ha, hb⟩ | ⟨ha, hb⟩
              · exact Or.inl ⟨ha, hb⟩
              · exact Or.inr ⟨ha, List.mem_cons_of_mem oh hb⟩

/-- If the new snapshot holds an id above every old-snapshot id, the
LEAVE flush is only ever reached with live ids: every LEAVE event of the
merge names a live entity. -/
theorem mergeLoop_leave_live (s : Aoi) : ∀ (fuel : Nat) (o n : List Int) (f : Int),
    f ∈ n → (∀ b ∈ o, b < f) → n.Sorted (· < ·) →
    ∀ e ∈ mergeLoop s fuel o n, e.e = AOI_LEAVE → (_aoi_object s e.id).isSome
  | 0, o, n, f => fun _ _ _ e he _ => absurd he (List.not_mem_nil e)
  | fuel + 1, [], n, f => fun _ _ _ e he hL => by
      rw [mergeLoop_nil_left] at he
      obtain ⟨nid, hnid, rfl⟩ := List.mem_map.mp he
      exact absurd hL (show AOI_ENTER ≠ AOI_LEAVE by decide)
  | fuel + 1, oh :: ot, [], f => fun hf _ _ => absurd hf (List.not_mem_nil f)
  | fuel + 1, oh :: ot, nh :: nt, f => fun hf hof hn e he hL => by
      rw [mergeLoop_cons_cons] at he
      have hnt : nt.Sorted (· < ·) := (List.sorted_cons.mp hn).2
      by_cases h1 : (_aoi_object s oh).isNone
      · rw [if_pos h1] at he
        exact mergeLoop_leave_live s fuel ot (nh :: nt) f hf
          (fun b hb => hof b (List.mem_cons_of_mem oh hb)) hn e he hL
      · rw [if_neg h1] at he
        have hohf : oh < f := hof oh (List.mem_cons_self oh ot)
        by_cases h2 : nh < oh
        · rw [if_pos h2] at he
          rcases List.mem_cons.mp he with rfl | he'
          · exact absurd hL (show AOI_ENTER ≠ AOI_LEAVE by decide)
          · have hfnt : f ∈ nt := by
              rcases List.mem_cons.mp hf with rfl | hf'
              · exact absurd h2 (by omega)
              · exact hf'
            exact mergeLoop_leave_live s fuel (oh :: ot) nt f hfnt hof hnt e he' hL
        · rw [if_neg h2] at he
          by_cases h3 : nh = oh
          · rw [if_pos h3] at he
            have hfnt : f ∈ nt := by
              rcases List.mem_cons.mp hf with rfl | hf'
              · exact absurd h3 (by omega)
              · exact hf'
            exact mergeLoop_leave_live s fuel ot nt f hfnt
              (fun b hb => hof b (List.mem_cons_of_mem oh hb)) hnt e he hL
          · rw [if_neg h3] at he
            rcases List.mem_cons.mp he with rfl | he'
            · show (_aoi_object s oh).isSome
              cases ho : _aoi_object s oh with
              | none => exact absurd (by rw [ho]; rfl) h1
              | some o => rfl
            · exact mergeLoop_leave_live s fuel ot (nh :: nt) f hf
                (fun b hb => hof b (List.mem_cons_of_mem oh hb)) hn e he' hL

/-- The merge emits events with strictly increasing ids. -/
theorem mergeLoop_pairwise (s : Aoi) : ∀ (fuel : Nat) (o n : List Int),
    o.Sorted (· < ·) → n.Sorted (· < ·) →
    (mergeLoop s fuel o n).Pairwise (fun e1 e2 => e1.id < e2.id)
  | 0, o, n => fun _ _ => List.Pairwise.nil
  | fuel + 1, [], n => fun _ hn => by
      rw [mergeLoop_nil_left]
      exact List.pairwise_map.mpr (hn.imp (fun h => h))
  | fuel + 1, oh :: ot, [] => fun ho _ => by
      rw [mergeLoop_nil_right]
      exact List.pairwise_map.mpr (ho.imp (fun h => h))
  | fuel + 1, oh :: ot, nh :: nt => fun ho hn => by
      rw [mergeLoop_cons_cons]
      have hot : ot.Sorted (· < ·) := (List.sorted_cons.mp ho).2
      have hoh : ∀ b ∈ ot, oh < b := (List.sorted_cons.mp ho).1
      have hnt : nt.Sorted (· < ·) := (List.sorted_cons.mp hn).2
      have hnh : ∀ b ∈ nt, nh < b := (List.sorted_cons.mp hn).1
      by_cases h1 : (_aoi_object s oh).isNone
      · rw [if_pos h1]
        exact mergeLoop_pairwise s fuel ot (nh :: nt) hot hn
      · rw [if_neg h1]
        by_cases h2 : nh < oh
        · rw [if_pos h2]
          rw [List.pairwise_cons]
          refine ⟨?_, mergeLoop_pairwise s fuel (oh :: ot) nt ho hnt⟩
          intro e he
          show nh < e.id
          rcases mergeLoop_id_mem s fuel (oh :: ot) nt e he with ⟨-, hb⟩ | ⟨-, hb⟩
          · exact hnh e.id hb
          · rcases List.mem_cons.mp hb with heq | hb'
            · rw [heq]; exact h2
            · have := hoh e.id hb'
              omega
        · rw [if_neg h2]
          by_cases h3 : nh = oh
          · rw [if_pos h3]
            exact mergeLoop_pairwise s fuel ot nt hot hnt
          · rw [if_neg h3]
            rw [List.pairwise_cons]
            refine ⟨?_, mergeLoop_pairwise s fuel ot (nh :: nt) hot hn⟩
            intro e he
            show oh < e.id
            rcases mergeLoop_id_mem s fuel ot (nh :: nt) e he with ⟨-, hb⟩ | ⟨-, hb⟩
            · rcases List.mem_cons.mp hb with heq | hb'
              · rw [heq]; omega
              · have := hnh e.id hb'
                omega
            · exact hoh e.id hb

/-- The fresh engine satisfies the event-bound invariant. -/
theorem EvtInv_init : EvtInv aoiInit := by
  constructor
  · intro k hk
    rw [aoiInit_lookup k] at hk
    exact absurd hk (by decide)
  · intro k obj hobj
    rw [aoiInit_lookup k] at hobj
    cases hobj

/-- A slot update that keeps the stored id, type and old snapshot
preserves the event-bound invariant. -/
theorem EvtInv_update_keep (s : Aoi) (H : Int) (objN : AoiObject)
    (hid : objN.id = (s.slot H).id) (hty : objN.type = (s.slot H).type)
    (hol : objN.o_list = (s.slot H).o_list)
    (h : EvtInv s) : EvtInv { s with slot := Function.update s.slot H objN } := by
  obtain ⟨hcnt, hsnap⟩ := h
  constructor
  · intro k hk
    rw [isSome_lookup_update s H objN hid hty k] at hk
    exact hcnt k hk
  · intro k obj hobj
    rcases lookup_update_cases hobj with ⟨hH, rfl⟩ | ⟨hH, hobj'⟩
    · obtain ⟨h0, -, hido, htyo⟩ := _aoi_object_some_iff.mp hobj
      have hold : _aoi_object s k = some (s.slot H) :=
        _aoi_object_some_iff.mpr ⟨h0, by rw [hH], by rw [← hid]; exact hido, by rw [← hty]; exact htyo⟩
      obtain ⟨hsorted, F, b, hF, hcard, hFb, hbs, hdich⟩ := hsnap k (s.slot H) hold
      rw [hol]
      refine ⟨hsorted, F, b, hF, hcard, hFb, hbs, ?_⟩
      intro j hj
      rw [isSome_lookup_update s H obj hid hty j] at hj
      exact hdich j hj
    · obtain ⟨hsorted, F, b, hF, hcard, hFb, hbs, hdich⟩ := hsnap k obj hobj'
      refine ⟨hsorted, F, b, hF, hcard, hFb, hbs, ?_⟩
      intro j hj
      rw [isSome_lookup_update s H objN hid hty j] at hj
      exact hdich j hj

/-- The axis re-link does not touch the slot table or the counter, so the
event-bound invariant transfers. -/
theorem EvtInv_update_list (s : Aoi) (a b c : Int) (h : EvtInv s) :
    EvtInv (_aoi_update_list s a b c) := h

/-- `aoi_enter` preserves the event-bound invariant. -/
theorem EvtInv_enter (s : Aoi) (ud : Int) (h0 : 0 ≤ s.id) (h : EvtInv s) :
    EvtInv (aoi_enter s ud).2 := by
  obtain ⟨hcnt, hsnap⟩ := h
  rcases nextIdLoop_inv 65536 s h0 with ⟨ctr, hctr, hge, heq⟩ | ⟨id, ctr, hid0, hctr, hge, hlt, hfree, heq⟩
  · rw [aoi_enter_eq_fail heq ud, pair_snd]
    constructor
    · intro k hk
      have hlt' : k < s.id := hcnt k hk
      show k < ctr
      omega
    · intro k obj hobj
      have hobj' : _aoi_object s k = some obj := hobj
      obtain ⟨hsorted, F, b, hF, hcard, hFb, hbs, hdich⟩ := hsnap k obj hobj'
      refine ⟨hsorted, F, b, hF, hcard, hFb, ?_, ?_⟩
      · show b ≤ ctr
        omega
      · intro j hj
        exact hdich j hj
  · rw [aoi_enter_eq_success hid0 heq ud, pair_snd]
    constructor
    · intro k hk
      obtain ⟨obj, hobj⟩ := Option.isSome_iff_exists.mp hk
      rcases lookup_update_cases hobj with ⟨hH, rfl⟩ | ⟨hH, hobj'⟩
      · have hk_id : id = k := (_aoi_object_some_iff.mp hobj).2.2.1
        show k < ctr
        omega
      · have hlt' : k < s.id := hcnt k (by rw [hobj']; rfl)
        show k < ctr
        omega
    · intro k obj hobj
      rcases lookup_update_cases hobj with ⟨hH, rfl⟩ | ⟨hH, hobj'⟩
      · refine ⟨List.sorted_nil, ∅, 0, ?_, by simp, ?_, ?_, ?_⟩
        · intro j hj
          exact absurd hj (List.not_mem_nil j)
        · intro j hj
          exact absurd hj (Finset.not_mem_empty j)
        · show (0:Int) ≤ ctr
          omega
        · intro j hj
          exact Or.inr (live_nonneg hj)
      · obtain ⟨hsorted, F, b, hF, hcard, hFb, hbs, hdich⟩ := hsnap k obj hobj'
        refine ⟨hsorted, F, b, hF, hcard, hFb, ?_, ?_⟩
        · show b ≤ ctr
          omega
        · intro j hj
          obtain ⟨obj2, hobj2⟩ := Option.isSome_iff_exists.mp hj
          rcases lookup_update_cases hobj2 with ⟨hH2, rfl⟩ | ⟨hH2, hobj2'⟩
          · have hk_id : id = j := (_aoi_object_some_iff.mp hobj2).2.2.1
            right
            show b ≤ j
            omega
          · exact hdich j (by rw [hobj2']; rfl)

/-- `aoi_leave` preserves the event-bound invariant. -/
theorem EvtInv_leave (s : Aoi) (id : Int) (h : EvtInv s) : EvtInv (aoi_leave s id) := by
  obtain ⟨hcnt, hsnap⟩ := h
  cases hobj : _aoi_object s id with
  | none =>
      unfold aoi_leave
      rw [hobj]
      exact ⟨hcnt, hsnap⟩
  | some obj0 =>
      rw [aoi_leave_eq_of_some hobj]
      constructor
      · intro k hk
        obtain ⟨obj, hobj2⟩ := Option.isSome_iff_exists.mp hk
        rcases lookup_update_cases hobj2 with ⟨hH, rfl⟩ | ⟨hH, hobj'⟩
        · have hty := (_aoi_object_some_iff.mp hobj2).2.2.2
          exact absurd rfl hty
        · show k < s.id
          exact hcnt k (by rw [hobj']; rfl)
      · intro k obj hobjk
        rcases lookup_update_cases hobjk with ⟨hH, rfl⟩ | ⟨hH, hobj'⟩
        · have hty := (_aoi_object_some_iff.mp hobjk).2.2.2
          exact absurd rfl hty
        · obtain ⟨hsorted, F, b, hF, hcard, hFb, hbs, hdich⟩ := hsnap k obj hobj'
          refine ⟨hsorted, F, b, hF, hcard, hFb, hbs, ?_⟩
          intro j hj
          obtain ⟨obj2, hobj2⟩ := Option.isSome_iff_exists.mp hj
          rcases lookup_update_cases hobj2 with ⟨hH2, rfl⟩ | ⟨hH2, hobj2'⟩
          · have hty := (_aoi_object_some_iff.mp hobj2).2.2.2
            exact absurd rfl hty
          · exact hdich j (by rw [hobj2']; rfl)

/-- `aoi_locate` preserves the event-bound invariant. -/
theorem EvtInv_locate (s : Aoi) (id x y : Int) (h : EvtInv s) : EvtInv (aoi_locate s id x y) := by
  cases hobj : _aoi_object s id with
  | none =>
      unfold aoi_locate
      rw [hobj]
      exact h
  | some obj =>
      obtain ⟨h0, hslot, hid, hty⟩ := _aoi_object_some_iff.mp hobj
      rw [aoi_locate_eq_of_some hobj x y]
      apply EvtInv_update_list
      exact EvtInv_update_keep s (AOI_HASH_ID id) _ (by rw [hslot]) (by rw [hslot]) (by rw [hslot]) h

/-- `aoi_move` preserves the event-bound invariant. -/
theorem EvtInv_move (s : Aoi) (id x y : Int) (h : EvtInv s) : EvtInv (aoi_move s id x y) := by
  cases hobj : _aoi_object s id with
  | none =>
      unfold aoi_move
      rw [hobj]
      exact h
  | some obj =>
      obtain ⟨h0, hslot, hid, hty⟩ := _aoi_object_some_iff.mp hobj
      rcases aoi_move_keep hobj x y with heq | ⟨objN, hNid, hNty, hNol, heq⟩
      · rw [heq]; exact h
      · rw [heq]
        exact EvtInv_update_keep s (AOI_HASH_ID id) objN
          (by rw [hslot]; exact hNid) (by rw [hslot]; exact hNty) (by rw [hslot]; exact hNol) h

/-- `aoi_speed` preserves the event-bound invariant. -/
theorem EvtInv_speed (s : Aoi) (id sp : Int) (h : EvtInv s) : EvtInv (aoi_speed s id sp) := by
  cases hobj : _aoi_object s id with
  | none =>
      unfold aoi_speed
      rw [hobj]
      exact h
  | some obj =>
      obtain ⟨h0, hslot, hid, hty⟩ := _aoi_object_some_iff.mp hobj
      rw [aoi_speed_eq_of_some hobj sp]
      have h1 : EvtInv { s with slot := Function.update s.slot (AOI_HASH_ID id) ({ obj with speed := sp }) } :=
        EvtInv_update_keep s (AOI_HASH_ID id) _ (by rw [hslot]) (by rw [hslot]) (by rw [hslot]) h
      by_cases hn : obj.n_tick > 0
      · rw [if_pos hn]
        exact EvtInv_move _ _ _ _ h1
      · rw [if_neg hn]
        exact h1

/-- The tick step preserves the event-bound invariant. -/
theorem EvtInv_object_update (s : Aoi) (objId tick : Int) (h : EvtInv s) :
    EvtInv (_aoi_object_update s objId tick) := by
  unfold _aoi_object_update
  apply EvtInv_update_list
  refine EvtInv_update_keep s (AOI_HASH_ID objId) _ ?_ ?_ ?_ h
  · split <;> rfl
  · split <;> rfl
  · split <;> rfl

/-- `aoi_update` preserves the event-bound invariant. -/
theorem EvtInv_advance (s : Aoi) (id tick : Int) (h : EvtInv s) : EvtInv (aoi_update s id tick) := by
  cases hobj : _aoi_object s id with
  | none =>
      unfold aoi_update
      rw [hobj]
      exact h
  | some obj =>
      rw [aoi_update_eq_of_some hobj tick]
      by_cases h1 : obj.type = AOI_OBJECT_INVALID ∨ obj.speed ≤ 0
      · rw [if_pos h1]; exact h
      · rw [if_neg h1]
        by_cases h2 : obj.n_tick ≤ 0
        · rw [if_pos h2]; exact h
        · rw [if_neg h2]
          exact EvtInv_object_update s id tick h

/-- `aoi_trigger` preserves the event-bound invariant: the scanned
entity's fresh snapshot is covered by the current live-id set with the
current counter as bound. -/
theorem EvtInv_trigger (s : Aoi) (id er lr : Int) (hA : AoiInv s) (h : EvtInv s) :
    EvtInv (aoi_trigger s id er lr).1 := by
  obtain ⟨hcnt, hsnap⟩ := h
  cases hobj : _aoi_object s id with
  | none =>
      rw [aoi_trigger_eq_of_none hobj, pair_fst]
      exact ⟨hcnt, hsnap⟩
  | some obj =>
      obtain ⟨h0, hslot, hid, hty⟩ := _aoi_object_some_iff.mp hobj
      rw [aoi_trigger_eq_of_some hobj, pair_fst]
      constructor
      · intro k hk
        rw [isSome_lookup_update s (AOI_HASH_ID id) _ (by rw [hslot]) (by rw [hslot]) k] at hk
        exact hcnt k hk
      · intro k objk hobjk
        rcases lookup_update_cases hobjk with ⟨hH, rfl⟩ | ⟨hH, hobj'⟩
        · refine ⟨?_, liveIds s, s.id, ?_, liveIds_card s, ?_, le_refl _, ?_⟩
          · show ((trigCur s id obj er lr).entries).Sorted (· < ·)
            exact sorted_trigCur s id obj er lr
          · intro j hj
            exact live_mem_liveIds (trigCur_entries_live s id obj er lr hA.2.2 j hj).2
          · intro j hj
            exact hcnt j (mem_liveIds_live hj)
          · intro j hj
            rw [isSome_lookup_update s (AOI_HASH_ID id) _ (by rw [hslot]) (by rw [hslot]) j] at hj
            exact Or.inl (live_mem_liveIds hj)
        · obtain ⟨hsorted, F, b, hF, hcard, hFb, hbs, hdich⟩ := hsnap k objk hobj'
          refine ⟨hsorted, F, b, hF, hcard, hFb, hbs, ?_⟩
          intro j hj
          rw [isSome_lookup_update s (AOI_HASH_ID id) _ (by rw [hslot]) (by rw [hslot]) j] at hj
          exact hdich j hj

/-- Every reachable state satisfies the event-bound invariant. -/
theorem reachable_evtInv {s : Aoi} (h : Reachable s) : EvtInv s := by
  induction h with
  | init => exact EvtInv_init
  | enter ud hr ih => exact EvtInv_enter _ ud (reachable_inv hr).1 ih
  | leave id _ ih => exact EvtInv_leave _ id ih
  | locate id x y _ ih => exact EvtInv_locate _ id x y ih
  | move id x y _ ih => exact EvtInv_move _ id x y ih
  | speed id sp _ ih => exact EvtInv_speed _ id sp ih
  | update id tick _ ih => exact EvtInv_advance _ id tick ih
  | trigger id er lr hr ih => exact EvtInv_trigger _ id er lr (reachable_inv hr) ih

/-- C9: on every reachable engine state, one scan (`aoi_trigger`) call
returns at most pool-capacity (`AOI_MAX_AOI` = 65536) events, so the
engine-owned event buffer of pool-capacity entries always suffices. -/
theorem c9_event_count_bound (s : Aoi) (id er lr : Int) (h : Reachable s) :
    ((aoi_trigger s id er lr).2).length ≤ 65536 := by
  have hA := reachable_inv h
  have hE := reachable_evtInv h
  cases hobj : _aoi_object s id with
  | none =>
      rw [aoi_trigger_eq_of_none hobj, pair_snd]
      show (0:Nat) ≤ 65536
      omega
  | some obj =>
      rw [aoi_trigger_eq_of_some hobj, pair_snd]
      obtain ⟨hsorted, F, b, hF, hcard, hFb, hbs, hdich⟩ := hE.2 id obj hobj
      have hnsorted := sorted_trigCur s id obj er lr
      have hnlive : ∀ j ∈ (trigCur s id obj er lr).entries, (_aoi_object s j).isSome :=
        fun j hj => (trigCur_entries_live s id obj er lr hA.2.2 j hj).2
      by_cases hemp : obj.o_list.entries.length = 0
      · rw [if_pos hemp, List.length_map]
        refine le_trans (length_le_card_of_mem _ (List.Pairwise.imp (fun hlt => ne_of_lt hlt) hnsorted) (liveIds s) ?_) (liveIds_card s)
        intro j hj
        exact live_mem_liveIds (hnlive j hj)
      · rw [if_neg hemp]
        have hpw : (mergeEvents s obj.o_list.entries (trigCur s id obj er lr).entries).Pairwise (fun e1 e2 => e1.id < e2.id) :=
          mergeLoop_pairwise s _ _ _ hsorted hnsorted
        have hidsnd : ((mergeEvents s obj.o_list.entries (trigCur s id obj er lr).entries).map (fun e => e.id)).Nodup :=
          List.pairwise_map.mpr (hpw.imp (fun hlt => ne_of_lt hlt))
        by_cases hfresh : ∃ f ∈ (trigCur s id obj er lr).entries, b ≤ f
        · obtain ⟨f, hfmem, hbf⟩ := hfresh
          have hlive_evt : ∀ e ∈ mergeEvents s obj.o_list.entries (trigCur s id obj er lr).entries, (_aoi_object s e.id).isSome := by
            intro e he
            rcases mergeLoop_id_mem s _ _ _ e he with ⟨-, hbmem⟩ | ⟨hL, -⟩
            · exact hnlive e.id hbmem
            · exact mergeLoop_leave_live s _ _ _ f hfmem
                (fun j hj => lt_of_lt_of_le (hFb j (hF j hj)) hbf) hnsorted e he hL
          have hlen : ((mergeEvents s obj.o_list.entries (trigCur s id obj er lr).entries).map (fun e => e.id)).length ≤ (liveIds s).card := by
            refine length_le_card_of_mem _ hidsnd (liveIds s) ?_
            intro j hj
            obtain ⟨e, he, rfl⟩ := List.mem_map.mp hj
            exact live_mem_liveIds (hlive_evt e he)
          rw [List.length_map] at hlen
          exact le_trans hlen (liveIds_card s)
        · push_neg at hfresh
          have hnF : ∀ j ∈ (trigCur s id obj er lr).entries, j ∈ F := by
            intro j hj
            rcases hdich j (hnlive j hj) with hin | hge
            · exact hin
            · exact absurd hge (not_le.mpr (hfresh j hj))
          have hlen : ((mergeEvents s obj.o_list.entries (trigCur s id obj er lr).entries).map (fun e => e.id)).length ≤ F.card := by
            refine length_le_card_of_mem _ hidsnd F ?_
            intro j hj
            obtain ⟨e, he, rfl⟩ := List.mem_map.mp hj
            rcases mergeLoop_id_mem s _ _ _ e he with ⟨-, hbmem⟩ | ⟨-, hbmem⟩
            · exact hnF e.id hbmem
            · exact hF e.id hbmem
          rw [List.length_map] at hlen
          exact le_trans hlen hcard

theorem c9_event_count_bound_witness :
    ((aoi_trigger (aoi_locate (aoi_enter (aoi_enter aoiInit 0).2 0).2 1 10 0) 0 100 130).2).length ≤ 65536 :=
  c9_event_count_bound _ 0 100 130
    (Reachable.locate 1 10 0 (Reachable.enter 0 (Reachable.enter 0 Reachable.init)))
